import Mathlib

/-!
# nextcloudapi: a shallow embedding of the client and its operation surface

The Go package `nextcloudapi` (files `nextcloudapi.go` and `ocs.go`) is a thin client
for the OCS user-administration API.  This development embeds

* Go strings as byte sequences, with the pieces of the Go standard library the
  source calls (`fmt.Sprintf` for `%s`, `url.QueryEscape`, `url.Values`,
  `strings.Split`, UTF-8 rune decoding and a regular-expression matcher);
* the response envelope `OCS` of `ocs.go`;
* the transport `Call` and the nine operations of `nextcloudapi.go`, written in
  explicit state-passing style over a `World` that records every invocation of `Call`
  and, for every request handed to the HTTP client, the calls that prepared it;

and then states and proves the properties of the specification over these definitions.
-/

namespace Nextcloudapi

/-! ## Go strings -/

/-- A Go `byte`. -/
abbrev Byte := Fin 256

/-- A Go `string`: an immutable sequence of bytes (not necessarily valid UTF-8). -/
abbrev GoString := List Byte

/-- Go's `utf8.EncodeRune` for a Unicode scalar value, used to spell the string
literals of the source (Go source text is UTF-8). -/
def encodeRune (r : Nat) : GoString :=
  if r < 0x80 then [Fin.ofNat r]
  else if r < 0x800 then [Fin.ofNat (0xC0 + r / 64), Fin.ofNat (0x80 + r % 64)]
  else if r < 0x10000 then
    [Fin.ofNat (0xE0 + r / 4096), Fin.ofNat (0x80 + r / 64 % 64), Fin.ofNat (0x80 + r % 64)]
  else
    [Fin.ofNat (0xF0 + r / 262144), Fin.ofNat (0x80 + r / 4096 % 64),
     Fin.ofNat (0x80 + r / 64 % 64), Fin.ofNat (0x80 + r % 64)]

/-- The bytes of a string literal of the source. -/
def lit (s : String) : GoString := s.data.flatMap (fun c => encodeRune c.toNat)

/-- Go's `fmt.Sprintf` restricted to what the source uses: the verb `%s` applied to
string operands.  Every other byte of the format is copied; a `%s` without an operand
prints `%!s(MISSING)` as `fmt` does. -/
def Sprintf : GoString → List GoString → GoString
  | [], _ => []
  | [c], _ => [c]
  | c :: d :: rest, args =>
    if c.val = 0x25 ∧ d.val = 0x73 then
      match args with
      | [] => lit "%!s(MISSING)" ++ Sprintf rest []
      | a :: more => a ++ Sprintf rest more
    else c :: Sprintf (d :: rest) args

/-- Go's `strings.Split(s, sep)` for a one-byte separator (the source only splits on
`"@"`): the pieces of `s` between the occurrences of `c`, always at least one piece. -/
def splitByte (c : Byte) : GoString → List GoString
  | [] => [[]]
  | b :: bs =>
    if b = c then [] :: splitByte c bs
    else
      match splitByte c bs with
      | [] => [[b]]
      | p :: ps => (b :: p) :: ps

/-! ## `net/url`: query escaping and form values -/

/-- Go's `url.shouldEscape(c, encodeQueryComponent)`: everything is escaped except the
unreserved characters, i.e. ASCII letters, digits and `-`, `_`, `.`, `~`. -/
def shouldEscape (c : Byte) : Bool :=
  if (0x61 ≤ c.val ∧ c.val ≤ 0x7A) ∨ (0x41 ≤ c.val ∧ c.val ≤ 0x5A) ∨
      (0x30 ≤ c.val ∧ c.val ≤ 0x39) then false
  else if c.val = 0x2D ∨ c.val = 0x5F ∨ c.val = 0x2E ∨ c.val = 0x7E then false
  else true

/-- The table `"0123456789ABCDEF"` of `net/url`. -/
def upperhex : GoString :=
  [0x30, 0x31, 0x32, 0x33, 0x34, 0x35, 0x36, 0x37, 0x38, 0x39, 0x41, 0x42, 0x43, 0x44, 0x45, 0x46]

/-- The table lookup `upperhex[n]`, for `n` below 16. -/
def hexDigit (n : Nat) : Byte := upperhex.getD n 0

/-- The escape of one byte in `url.QueryEscape`: a space becomes `+`, any other byte
that must be escaped becomes `%XX` (`upperhex[c>>4]`, `upperhex[c&15]`), the rest is
copied. -/
def escapeByte (c : Byte) : GoString :=
  if shouldEscape c then
    if c.val = 0x20 then [0x2B]
    else [0x25, hexDigit (c.val / 16), hexDigit (c.val % 16)]
  else [c]

/-- Go's `url.QueryEscape`. -/
def QueryEscape (s : GoString) : GoString := s.flatMap escapeByte

/-- Go's `url.ishex`. -/
def ishex (c : Byte) : Bool :=
  (0x30 ≤ c.val ∧ c.val ≤ 0x39) ∨ (0x61 ≤ c.val ∧ c.val ≤ 0x66) ∨ (0x41 ≤ c.val ∧ c.val ≤ 0x46)

/-- Go's `url.unhex`. -/
def unhex (c : Byte) : Nat :=
  if 0x30 ≤ c.val ∧ c.val ≤ 0x39 then c.val - 0x30
  else if 0x61 ≤ c.val ∧ c.val ≤ 0x66 then c.val - 0x61 + 10
  else if 0x41 ≤ c.val ∧ c.val ≤ 0x46 then c.val - 0x41 + 10
  else 0

/-- Go's `url.QueryUnescape`: `%XX` is decoded, `+` becomes a space, and a `%` that is
not followed by two hexadecimal digits is an error (`none`). -/
def QueryUnescape : GoString → Option GoString
  | [] => some []
  | c :: rest =>
    if c.val = 0x25 then
      match rest with
      | h :: l :: rest2 =>
        if ishex h ∧ ishex l then
          (QueryUnescape rest2).map (fun t => Fin.ofNat (unhex h * 16 + unhex l) :: t)
        else none
      | _ => none
    else if c.val = 0x2B then (QueryUnescape rest).map (fun t => (0x20 : Byte) :: t)
    else (QueryUnescape rest).map (fun t => c :: t)

/-- Go's `url.Values`, a `map[string][]string`, as an association list whose keys are
pairwise distinct. -/
abbrev Values := List (GoString × List GoString)

/-- The map read `v[key]` (the nil slice when the key is absent). -/
def Values.get (v : Values) (key : GoString) : List GoString :=
  match v with
  | [] => []
  | (k, vs) :: rest => if k = key then vs else Values.get rest key

/-- The map write `v[key] = vs`. -/
def Values.set (v : Values) (key : GoString) (vs : List GoString) : Values :=
  match v with
  | [] => [(key, vs)]
  | (k, old) :: rest => if k = key then (k, vs) :: rest else (k, old) :: Values.set rest key vs

/-- Go's `Values.Add`: `v[key] = append(v[key], value)`. -/
def Values.Add (v : Values) (key value : GoString) : Values :=
  v.set key (v.get key ++ [value])

/-- Go's string order `<=`: bytewise lexicographic. -/
def strLe : GoString → GoString → Bool
  | [], _ => true
  | _ :: _, [] => false
  | a :: as, b :: bs => if a.val < b.val then true else if b.val < a.val then false else strLe as bs

/-- Insertion of a key into a sorted list of keys. -/
def insertKey (k : GoString) : List GoString → List GoString
  | [] => [k]
  | x :: xs => if strLe k x then k :: x :: xs else x :: insertKey k xs

/-- The sorted keys of the map (`slices.Sort(keys)` in `Values.Encode`). -/
def sortKeys : List GoString → List GoString
  | [] => []
  | k :: ks => insertKey k (sortKeys ks)

/-- One iteration of the inner loop of `Values.Encode`: write `&` unless the buffer is
empty, then the escaped key, `=`, and the escaped value. -/
def encodeStep (keyEscaped : GoString) (buf : GoString) (value : GoString) : GoString :=
  (if buf.length > 0 then buf ++ [(0x26 : Byte)] else buf) ++ keyEscaped ++ [(0x3D : Byte)] ++
    QueryEscape value

/-- Go's `Values.Encode`: the keys in sorted order, every value of a key in sequence,
as `key=value` pairs joined by `&`, keys and values query-escaped. -/
def Values.Encode (v : Values) : GoString :=
  (sortKeys (v.map Prod.fst)).foldl
    (fun buf k => (v.get k).foldl (encodeStep (QueryEscape k)) buf) []

/-! ## `unicode/utf8` and `regexp` -/

/-- Go's `utf8.RuneError`, U+FFFD. -/
def RuneError : Nat := 0xFFFD

/-- A UTF-8 continuation byte, `0x80..0xBF`. -/
def isCont (b : Byte) : Bool := 0x80 ≤ b.val ∧ b.val ≤ 0xBF

/-- Go's `utf8.DecodeRuneInString`, which is also `regexp`'s `inputString.step`: the
rune at the head of the string and its width in bytes.  A byte below `0x80` is itself;
a well-formed multi-byte sequence (shortest form, no surrogate, at most U+10FFFF, as
fixed by the accept ranges of the second byte) is its code point; anything else is
`RuneError` of width 1. -/
def DecodeRune : GoString → Nat × Nat
  | [] => (RuneError, 0)
  | b0 :: rest =>
    if b0.val < 0x80 then (b0.val, 1)
    else if 0xC2 ≤ b0.val ∧ b0.val ≤ 0xDF then
      match rest with
      | b1 :: _ =>
        if isCont b1 then (b0.val % 32 * 64 + b1.val % 64, 2) else (RuneError, 1)
      | [] => (RuneError, 1)
    else if 0xE0 ≤ b0.val ∧ b0.val ≤ 0xEF then
      match rest with
      | b1 :: b2 :: _ =>
        if (if b0.val = 0xE0 then 0xA0 else 0x80) ≤ b1.val ∧
            b1.val ≤ (if b0.val = 0xED then 0x9F else 0xBF) ∧ isCont b2 then
          (b0.val % 16 * 4096 + b1.val % 64 * 64 + b2.val % 64, 3)
        else (RuneError, 1)
      | _ => (RuneError, 1)
    else if 0xF0 ≤ b0.val ∧ b0.val ≤ 0xF4 then
      match rest with
      | b1 :: b2 :: b3 :: _ =>
        if (if b0.val = 0xF0 then 0x90 else 0x80) ≤ b1.val ∧
            b1.val ≤ (if b0.val = 0xF4 then 0x8F else 0xBF) ∧ isCont b2 ∧ isCont b3 then
          (b0.val % 8 * 262144 + b1.val % 64 * 4096 + b2.val % 64 * 64 + b3.val % 64, 4)
        else (RuneError, 1)
      | _ => (RuneError, 1)
    else (RuneError, 1)

/-- The runes the matcher reads from a string, left to right.  The counter is the
number of bytes that still belong to the rune decoded last and are stepped over. -/
def runesFrom : Nat → GoString → List Nat
  | _, [] => []
  | 0, b :: bs => (DecodeRune (b :: bs)).1 :: runesFrom ((DecodeRune (b :: bs)).2 - 1) bs
  | k + 1, _ :: bs => runesFrom k bs

/-- The sequence of runes of a string as `regexp` reads it. -/
def runes (s : GoString) : List Nat := runesFrom 0 s

/-- The abstract syntax of the regular expressions the source uses: character classes,
concatenation, alternation and repetition (matching is anchored at both ends, as the
pattern of the source is by `^` and `$`). -/
inductive Regex where
  | nothing : Regex
  | empty : Regex
  | cls (p : Nat → Bool) : Regex
  | cat (r s : Regex) : Regex
  | alt (r s : Regex) : Regex
  | star (r : Regex) : Regex

/-- The repetition `r+`. -/
def Regex.plus (r : Regex) : Regex := Regex.cat r (Regex.star r)

/-- Whether the expression matches the empty string. -/
def Regex.nullable : Regex → Bool
  | nothing => false
  | empty => true
  | cls _ => false
  | cat r s => r.nullable && s.nullable
  | alt r s => r.nullable || s.nullable
  | star _ => true

/-- The derivative of the expression by one rune. -/
def Regex.deriv : Regex → Nat → Regex
  | nothing, _ => nothing
  | empty, _ => nothing
  | cls p, c => if p c then empty else nothing
  | cat r s, c =>
    if r.nullable then alt (cat (r.deriv c) s) (s.deriv c) else cat (r.deriv c) s
  | alt r s, c => alt (r.deriv c) (s.deriv c)
  | star r, c => cat (r.deriv c) (star r)

/-- Whether the whole rune sequence matches the expression. -/
def Regex.matchRunes (r : Regex) (s : List Nat) : Bool := (s.foldl Regex.deriv r).nullable

/-- Go's `regexp.MatchString` for a pattern that compiles (given by its syntax tree):
reports whether the string matches; the error result is for a pattern that does not
compile and so never arises here. -/
def MatchString (pattern : Regex) (s : GoString) : Except GoString Bool :=
  Except.ok (pattern.matchRunes (runes s))

/-- An ASCII letter or digit: the ranges `a-zA-Z0-9` of both classes of the pattern. -/
def isAlnum (r : Nat) : Bool :=
  (0x61 ≤ r ∧ r ≤ 0x7A) ∨ (0x41 ≤ r ∧ r ≤ 0x5A) ∨ (0x30 ≤ r ∧ r ≤ 0x39)

/-- The class `[a-zA-Z0-9.!#$%&’*+/=?^_{|}~-]` of the local part, with the backquote: the
quote in it is U+2019, as typed in the source, not the ASCII apostrophe. -/
def localClass (r : Nat) : Bool :=
  isAlnum r || ".!#$%&’*+/=?^_\x60\x7b|\x7d~-".data.any (fun c => c.toNat == r)

/-- The class `[a-zA-Z0-9-]` of the domain labels. -/
def domainClass (r : Nat) : Bool := isAlnum r || r == 0x2D

/-- The expression `\.[a-zA-Z0-9-][a-zA-Z0-9-]+` of one further label. -/
def labelPattern : Regex :=
  Regex.cat (Regex.cls (fun r => r == 0x2E))
    (Regex.cat (Regex.cls domainClass) (Regex.plus (Regex.cls domainClass)))

/-- The pattern of `AddUserSimple`,
`^[a-zA-Z0-9.!#$%&’*+/=?^_{|}~-]+@[a-zA-Z0-9-]+(?:\.[a-zA-Z0-9-][a-zA-Z0-9-]+)+$`
(with a backquote after the underscore), as a syntax tree. -/
def emailPattern : Regex :=
  Regex.cat (Regex.plus (Regex.cls localClass))
    (Regex.cat (Regex.cls (fun r => r == 0x40))
      (Regex.cat (Regex.plus (Regex.cls domainClass))
        (Regex.plus labelPattern)))

/-! ## The response envelope (`ocs.go`) -/

/-- Go's `xml.Name`. -/
structure XMLName where
  Space : GoString := []
  Local : GoString := []
deriving DecidableEq

/-- The struct `Meta`: the status section of the envelope. -/
structure Meta where
  Status : GoString := []
  StatusCode : Int := 0
  Message : GoString := []
  TotalItems : GoString := []
  ItemsPerPage : GoString := []
deriving DecidableEq

/-- The struct `Quota`.  The `float64` field `Relative` is carried as its IEEE-754 bit
pattern: no operation of the package computes with it. -/
structure Quota where
  Free : Int := 0
  Used : Int := 0
  Total : Int := 0
  Relative : Nat := 0
  Quota : Int := 0
deriving DecidableEq

/-- The struct `Data`: the payload section of the envelope.  The one-field wrapper
structs `Users`, `Groups`, `Username`, `Groupname` and `Datafield` are carried as the
sequences of their character data. -/
structure Data where
  Users : List GoString := []
  StorageLocation : GoString := []
  LastLogin : Int := 0
  Backend : GoString := []
  Id : GoString := []
  Enabled : Bool := false
  Quota : Quota := {}
  Email : GoString := []
  Displayname : GoString := []
  Phone : GoString := []
  Address : GoString := []
  Website : GoString := []
  Twitter : GoString := []
  Datafield : List GoString := []
  Groups : List GoString := []
deriving DecidableEq

/-- The struct `OCS`: the response envelope. -/
structure OCS where
  XMLName : XMLName := {}
  Meta : Meta := {}
  Data : Data := {}
deriving DecidableEq

/-- The zero value `OCS{}`. -/
def OCS.zero : OCS := {}

/-! ## Configuration, errors and the outside world -/

/-- The struct `NextcloudConfig`. -/
structure NextcloudConfig where
  Username : GoString
  Password : GoString
  NextcloudUrl : GoString
deriving DecidableEq

/-- The struct `NextcloudApi`. -/
structure NextcloudApi where
  NextcloudConfig : NextcloudConfig
deriving DecidableEq

/-- Modelled from the spec: the struct `User`, whose declaration is not in the two
source files.  The fields are the ones `AddUser` reads: six strings and two string
lists ("id, password, display name, email, quota string, language, list of group
memberships to add immediately, list of subadmin group grants"). -/
structure User where
  Userid : GoString := []
  Password : GoString := []
  DisplayName : GoString := []
  Email : GoString := []
  Quota : GoString := []
  Language : GoString := []
  Groups : List GoString := []
  Subadmin : List GoString := []
deriving DecidableEq

/-- The three error kinds of the specification.  In the source every error is a plain
`fmt.Errorf` string; the kind records which failing step created it and is never
inspected by the code. -/
inductive ErrorKind where
  | transport
  | decode
  | validation
deriving DecidableEq

/-- A non-nil Go `error`: its message, and the kind of the step that raised it. -/
structure GoError where
  kind : ErrorKind
  msg : GoString
deriving DecidableEq

/-- What a function of the package returns: `(OCS, error)`, with `none` for `nil`. -/
abbrev Result := OCS × Option GoError

/-- The calls on `net/http` by which `Call` prepares a request, each by its arguments:
`http.NewRequest(method, rawURL, body)` (`none` is the nil reader), then
`req.Header.Set(headerSet.1, headerSet.2)`, `req.Header.Add(headerAdd.1, headerAdd.2)` and
`req.SetBasicAuth(basicAuth.1, basicAuth.2)`.

This is the record of what the package passes to `net/http`, not the `*http.Request`
that `net/http` builds from it: the parsing of `rawURL` and the escaped form of its path
on the wire, the canonical form of the header keys, the method an empty `method` stands
for and the encoding of the credentials are the library's and belong to
`Env.newRequest` and `Env.doRequest`. -/
structure RequestCalls where
  method : GoString
  rawURL : GoString
  body : Option GoString
  headerSet : GoString × GoString
  headerAdd : GoString × GoString
  basicAuth : GoString × GoString
deriving DecidableEq

/-- The behaviour of what lies outside the package: the Go runtime, `net/http`, the
network and the remote server, and `encoding/xml`.
* `pkgPath`: the import path of the package, the prefix of the names that
  `runtime.FuncForPC` reports;
* `newRequest method rawURL`: the error of `http.NewRequest` on that method and that
  string (it parses the string as a URL and may reject it), `none` when it succeeds;
* `doRequest calls`: the outcome of `client.Do`, under the 10 second timeout, on the
  request that `net/http` builds from the calls `calls`: an error, or a response, given
  by the outcome of `ioutil.ReadAll` on its body (an error or the bytes read);
* `xmlUnmarshal body`: what `xml.Unmarshal` leaves in a zero `OCS` and its error. -/
structure Env where
  pkgPath : GoString
  newRequest : GoString → GoString → Option GoString
  doRequest : RequestCalls → Except GoString (Except GoString GoString)
  xmlUnmarshal : GoString → OCS × Option GoString

/-- One invocation of `Call`: its three arguments (`none` is the nil reader). -/
structure CallRecord where
  url : GoString
  method : GoString
  data : Option GoString
deriving DecidableEq

/-- The observable history: every invocation of `Call`, and every request handed to
`client.Do`, given by the calls that prepared it; oldest first. -/
structure World where
  calls : List CallRecord := []
  sent : List RequestCalls := []
deriving DecidableEq

/-- The function `getCurrentFuncName`, called from the method `fn` of `*NextcloudApi`:
`runtime.Caller(1)` is its caller, and `runtime.FuncForPC(pc).Name()` is the qualified
name of that method, `<import path>.(*NextcloudApi).<fn>`. -/
def getCurrentFuncName (env : Env) (fn : String) : GoString :=
  env.pkgPath ++ lit ".(*NextcloudApi)." ++ lit fn

/-- The statement `fmt.Errorf("%s: %s", getCurrentFuncName(), err)` inside the function
called `fn`: `getCurrentFuncName` asks the runtime for its own caller, which is `fn`. -/
def wrapError (env : Env) (fn : String) (err : GoError) : GoError :=
  { kind := err.kind, msg := Sprintf (lit "%s: %s") [getCurrentFuncName env fn, err.msg] }

/-- The variable `apiUrlPath`. -/
def apiUrlPath : GoString := lit "/ocs/v1.php"

/-- The field `apiRoutes.users`. -/
def apiRoutes.users : GoString := apiUrlPath ++ lit "/cloud/users"

/-- The field `apiRoutes.groups`. -/
def apiRoutes.groups : GoString := apiUrlPath ++ lit "/cloud/groups"

/-! ## The transport and the operations (`nextcloudapi.go`) -/

/-- The calls by which `Call` prepares its request, from its three arguments:
`http.NewRequest(method, ncapi.NextcloudConfig.NextcloudUrl+url, data)`,
`req.Header.Set("OCS-APIRequest", "true")`,
`req.Header.Add("Content-Type", "application/x-www-form-urlencoded")` and
`req.SetBasicAuth(Username, Password)`. -/
def requestCalls (ncapi : NextcloudApi) (url method : GoString) (data : Option GoString) :
    RequestCalls :=
  { method := method
    rawURL := ncapi.NextcloudConfig.NextcloudUrl ++ url
    body := data
    headerSet := (lit "OCS-APIRequest", lit "true")
    headerAdd := (lit "Content-Type", lit "application/x-www-form-urlencoded")
    basicAuth := (ncapi.NextcloudConfig.Username, ncapi.NextcloudConfig.Password) }

/-- The method `Call`: ask `http.NewRequest` for a request on the string
`NextcloudUrl + url`, set the two headers and the basic-auth credentials on it, send it,
read the body and decode it.  Each of the four
failing steps returns `OCS{}` and the error prefixed with the name of `Call`. -/
def Call (env : Env) (ncapi : NextcloudApi) (url method : GoString) (data : Option GoString)
    (w : World) : Result × World :=
  let w1 : World := { w with calls := w.calls ++ [{ url := url, method := method, data := data }] }
  match env.newRequest method (ncapi.NextcloudConfig.NextcloudUrl ++ url) with
  | some err => ((OCS.zero, some (wrapError env "Call" ⟨ErrorKind.transport, err⟩)), w1)
  | none =>
    let req : RequestCalls := requestCalls ncapi url method data
    let w2 : World := { w1 with sent := w1.sent ++ [req] }
    match env.doRequest req with
    | Except.error err => ((OCS.zero, some (wrapError env "Call" ⟨ErrorKind.transport, err⟩)), w2)
    | Except.ok response =>
      match response with
      | Except.error err =>
        ((OCS.zero, some (wrapError env "Call" ⟨ErrorKind.transport, err⟩)), w2)
      | Except.ok body =>
        match env.xmlUnmarshal body with
        | (_, some err) => ((OCS.zero, some (wrapError env "Call" ⟨ErrorKind.decode, err⟩)), w2)
        | (osc, none) => ((osc, none), w2)

/-- The tail shared by the operations that call `Call` themselves:
`if err != nil { return OCS{}, fmt.Errorf("%s: %s", getCurrentFuncName(), err) }` and
`return resp, nil`, inside the function called `fn`. -/
def returnFrom (env : Env) (fn : String) (r : Result × World) : Result × World :=
  match r with
  | ((_, some err), w) => ((OCS.zero, some (wrapError env fn err)), w)
  | ((resp, none), w) => ((resp, none), w)

/-- The method `ListUsers(searchString ...string)`. -/
def ListUsers (env : Env) (ncapi : NextcloudApi) (searchString : List GoString) (w : World) :
    Result × World :=
  let urlpath :=
    match searchString with
    | [] => apiRoutes.users
    | first :: _ => Sprintf (lit "%s?search=%s") [apiRoutes.users, QueryEscape first]
  returnFrom env "ListUsers" (Call env ncapi urlpath (lit "GET") none w)

/-- The form values `AddUser` builds: the six scalar fields in a map literal, then one
`Add` per element of `Groups` and of `Subadmin`. -/
def addUserData (user : User) : Values :=
  let data : Values :=
    [(lit "userid", [user.Userid]),
     (lit "password", [user.Password]),
     (lit "displayName", [user.DisplayName]),
     (lit "email", [user.Email]),
     (lit "quota", [user.Quota]),
     (lit "language", [user.Language])]
  let data :=
    if user.Groups.length > 0 then
      user.Groups.foldl (fun d g => Values.Add d (lit "groups[]") g) data
    else data
  if user.Subadmin.length > 0 then
    user.Subadmin.foldl (fun d g => Values.Add d (lit "subadmin[]") g) data
  else data

/-- The method `AddUser`. -/
def AddUser (env : Env) (ncapi : NextcloudApi) (user : User) (w : World) : Result × World :=
  returnFrom env "AddUser"
    (Call env ncapi apiRoutes.users (lit "POST") (some (Values.Encode (addUserData user))) w)

/-- The expression `strings.Split(email, "@")[0]`. -/
def emailUserid (email : GoString) : GoString :=
  match splitByte 0x40 email with
  | [] => []
  | first :: _ => first

/-- The method `AddUserSimple`. -/
def AddUserSimple (env : Env) (ncapi : NextcloudApi) (email : GoString) (w : World) :
    Result × World :=
  match MatchString emailPattern email with
  | Except.error err =>
    ((OCS.zero, some (wrapError env "AddUserSimple" ⟨ErrorKind.validation, err⟩)), w)
  | Except.ok isMatch =>
    if !isMatch then
      ((OCS.zero,
        some ⟨ErrorKind.validation,
          Sprintf (lit "%s: email \x27%s\x27 is not valid") [getCurrentFuncName env "AddUserSimple", email]⟩),
       w)
    else
      AddUser env ncapi { Userid := emailUserid email, Email := email } w

/-- The method `DelUser`. -/
def DelUser (env : Env) (ncapi : NextcloudApi) (username : GoString) (w : World) :
    Result × World :=
  returnFrom env "DelUser"
    (Call env ncapi (Sprintf (apiRoutes.users ++ lit "/%s") [username]) (lit "DELETE") none w)

/-- The method `AddUserInGroup`. -/
def AddUserInGroup (env : Env) (ncapi : NextcloudApi) (username group : GoString) (w : World) :
    Result × World :=
  let data : Values := [(lit "groupid", [group])]
  returnFrom env "AddUserInGroup"
    (Call env ncapi (Sprintf (apiRoutes.users ++ lit "/%s/groups") [username]) (lit "POST")
      (some (Values.Encode data)) w)

/-- The method `DeleteUserFromGroup`. -/
def DeleteUserFromGroup (env : Env) (ncapi : NextcloudApi) (username group : GoString)
    (w : World) : Result × World :=
  let data : Values := [(lit "groupid", [group])]
  returnFrom env "DeleteUserFromGroup"
    (Call env ncapi (Sprintf (apiRoutes.users ++ lit "/%s/groups") [username]) (lit "DELETE")
      (some (Values.Encode data)) w)

/-- The method `ResendEmail`. -/
def ResendEmail (env : Env) (ncapi : NextcloudApi) (username : GoString) (w : World) :
    Result × World :=
  returnFrom env "ResendEmail"
    (Call env ncapi (Sprintf (apiRoutes.users ++ lit "/%s/welcome") [username]) (lit "POST") none w)

/-- The method `DisableUser`. -/
def DisableUser (env : Env) (ncapi : NextcloudApi) (username : GoString) (w : World) :
    Result × World :=
  returnFrom env "DisableUser"
    (Call env ncapi (Sprintf (apiRoutes.users ++ lit "/%s/disable") [username]) (lit "PUT") none w)

/-- The method `EnableUser`. -/
def EnableUser (env : Env) (ncapi : NextcloudApi) (username : GoString) (w : World) :
    Result × World :=
  returnFrom env "EnableUser"
    (Call env ncapi (Sprintf (apiRoutes.users ++ lit "/%s/enable") [username]) (lit "PUT") none w)

/-! ## Reading a form body back

What a server does with the body of a request: Go's `url.ParseQuery`.  It is not called
by the package; the properties of the request bodies are stated through it. -/

/-- Go's `strings.Cut(s, sep)` for a one-byte separator. -/
def cutByte (c : Byte) : GoString → GoString × GoString
  | [] => ([], [])
  | b :: bs => if b = c then ([], bs) else ((b :: (cutByte c bs).1), (cutByte c bs).2)

/-- The decoding of one `&`-separated piece of a form body in `url.ParseQuery`: a piece
with a semicolon, an empty piece and a piece that does not unescape are dropped;
otherwise the piece is cut at the first `=` into key and value, both unescaped. -/
def parsePiece (piece : GoString) : Option (GoString × GoString) :=
  if piece.any (fun b => b.val == 0x3B) then none
  else if piece = [] then none
  else
    match QueryUnescape (cutByte 0x3D piece).1, QueryUnescape (cutByte 0x3D piece).2 with
    | some k, some v => some (k, v)
    | _, _ => none

/-- Go's `url.ParseQuery`: the fields (key, value) of a form body, in order. -/
def parseQuery (query : GoString) : List (GoString × GoString) :=
  (splitByte 0x26 query).filterMap parsePiece

/-- The values of the fields of a form body that carry the given key, in order: the
entry `m[key]` of the map `url.ParseQuery` builds. -/
def fieldValues (body key : GoString) : List GoString :=
  ((parseQuery body).filter (fun f => f.1 = key)).map Prod.snd

/-- The bytes that separate the fields of a form body: `&`, `=` and `;`. -/
def isSep (b : Byte) : Bool := b.val == 0x26 || b.val == 0x3D || b.val == 0x3B

/-- One field of a form body: escaped key, `=`, escaped value. -/
def encPair (p : GoString × GoString) : GoString :=
  QueryEscape p.1 ++ (0x3D : Byte) :: QueryEscape p.2

/-- A form body: the fields joined by `&`. -/
def renderFields : List (GoString × GoString) → GoString
  | [] => []
  | p :: rest => encPair p ++ rest.flatMap (fun q => (0x26 : Byte) :: encPair q)

/-- The fields `Values.Encode` writes, in order: for each key in sorted order, one field
per value of the key. -/
def Values.fields (v : Values) : List (GoString × GoString) :=
  (sortKeys (v.map Prod.fst)).flatMap (fun k => (Values.get v k).map (fun x => (k, x)))

/-- The fields of the body of `AddUser`, in the order of the body. -/
def addUserFields (user : User) : List (GoString × GoString) :=
  [(lit "displayName", user.DisplayName), (lit "email", user.Email)] ++
    user.Groups.map (fun g => (lit "groups[]", g)) ++
    [(lit "language", user.Language), (lit "password", user.Password),
     (lit "quota", user.Quota)] ++
    user.Subadmin.map (fun g => (lit "subadmin[]", g)) ++
    [(lit "userid", user.Userid)]

/-- The body of `AddUser` key by key, in the order of the body: each key with its values. -/
def addUserSegments (user : User) : Values :=
  [(lit "displayName", [user.DisplayName]), (lit "email", [user.Email]),
   (lit "groups[]", user.Groups), (lit "language", [user.Language]),
   (lit "password", [user.Password]), (lit "quota", [user.Quota]),
   (lit "subadmin[]", user.Subadmin), (lit "userid", [user.Userid])]

/-! ## The meaning of the pattern -/

/-- The set of rune sequences an expression denotes. -/
def Regex.Lang : Regex → Language Nat
  | Regex.nothing => 0
  | Regex.empty => 1
  | Regex.cls p => {s | ∃ c, p c = true ∧ s = [c]}
  | Regex.cat r s => r.Lang * s.Lang
  | Regex.alt r s => r.Lang + s.Lang
  | Regex.star r => KStar.kstar r.Lang

/-- The shape of the rune sequences the pattern of `AddUserSimple` accepts: a non-empty
local part over `localClass`, `@`, a non-empty first label over `domainClass`, and one
or more further labels, each a dot followed by at least two runes of `domainClass`. -/
def EmailShape (rs : List Nat) : Prop :=
  ∃ (loc d0 : List Nat) (ds : List (List Nat)),
    rs = loc ++ 0x40 :: (d0 ++ ds.flatMap (fun d => 0x2E :: d)) ∧
    loc ≠ [] ∧ (∀ c ∈ loc, localClass c = true) ∧
    d0 ≠ [] ∧ (∀ c ∈ d0, domainClass c = true) ∧
    ds ≠ [] ∧ ∀ d ∈ ds, 2 ≤ d.length ∧ ∀ c ∈ d, domainClass c = true

/-- The validation of `AddUserSimple`: whether the pattern matches the email. -/
def emailValid (email : GoString) : Bool := emailPattern.matchRunes (runes email)

/-! ## The operation surface as a whole -/

/-- One invocation of one of the nine public operations, with its arguments. -/
inductive Operation where
  | listUsers (searchString : List GoString)
  | addUser (user : User)
  | addUserSimple (email : GoString)
  | delUser (username : GoString)
  | addUserInGroup (username group : GoString)
  | deleteUserFromGroup (username group : GoString)
  | resendEmail (username : GoString)
  | disableUser (username : GoString)
  | enableUser (username : GoString)

/-- Running an invocation. -/
def Operation.run (env : Env) (ncapi : NextcloudApi) : Operation → World → Result × World
  | Operation.listUsers searchString => ListUsers env ncapi searchString
  | Operation.addUser user => AddUser env ncapi user
  | Operation.addUserSimple email => AddUserSimple env ncapi email
  | Operation.delUser username => DelUser env ncapi username
  | Operation.addUserInGroup username group => AddUserInGroup env ncapi username group
  | Operation.deleteUserFromGroup username group => DeleteUserFromGroup env ncapi username group
  | Operation.resendEmail username => ResendEmail env ncapi username
  | Operation.disableUser username => DisableUser env ncapi username
  | Operation.enableUser username => EnableUser env ncapi username

/-- The name of the method the caller invoked. -/
def Operation.name : Operation → String
  | Operation.listUsers _ => "ListUsers"
  | Operation.addUser _ => "AddUser"
  | Operation.addUserSimple _ => "AddUserSimple"
  | Operation.delUser _ => "DelUser"
  | Operation.addUserInGroup _ _ => "AddUserInGroup"
  | Operation.deleteUserFromGroup _ _ => "DeleteUserFromGroup"
  | Operation.resendEmail _ => "ResendEmail"
  | Operation.disableUser _ => "DisableUser"
  | Operation.enableUser _ => "EnableUser"

/-- Whether the invocation gets as far as the transport: every one does, except
`AddUserSimple` on an email its validation rejects. -/
def Operation.reachesTransport : Operation → Bool
  | Operation.addUserSimple email => emailValid email
  | _ => true

/-- The arguments of the invocation of `Call` the operation makes: path, method and
body. -/
def Operation.callArgs : Operation → CallRecord
  | Operation.listUsers [] =>
    { url := lit "/ocs/v1.php/cloud/users", method := lit "GET", data := none }
  | Operation.listUsers (first :: _) =>
    { url := lit "/ocs/v1.php/cloud/users?search=" ++ QueryEscape first, method := lit "GET",
      data := none }
  | Operation.addUser user =>
    { url := lit "/ocs/v1.php/cloud/users", method := lit "POST",
      data := some (Values.Encode (addUserData user)) }
  | Operation.addUserSimple email =>
    { url := lit "/ocs/v1.php/cloud/users", method := lit "POST",
      data := some (Values.Encode (addUserData { Userid := emailUserid email, Email := email })) }
  | Operation.delUser username =>
    { url := lit "/ocs/v1.php/cloud/users/" ++ username, method := lit "DELETE", data := none }
  | Operation.addUserInGroup username group =>
    { url := lit "/ocs/v1.php/cloud/users/" ++ username ++ lit "/groups", method := lit "POST",
      data := some (lit "groupid=" ++ QueryEscape group) }
  | Operation.deleteUserFromGroup username group =>
    { url := lit "/ocs/v1.php/cloud/users/" ++ username ++ lit "/groups", method := lit "DELETE",
      data := some (lit "groupid=" ++ QueryEscape group) }
  | Operation.resendEmail username =>
    { url := lit "/ocs/v1.php/cloud/users/" ++ username ++ lit "/welcome", method := lit "POST",
      data := none }
  | Operation.disableUser username =>
    { url := lit "/ocs/v1.php/cloud/users/" ++ username ++ lit "/disable", method := lit "PUT",
      data := none }
  | Operation.enableUser username =>
    { url := lit "/ocs/v1.php/cloud/users/" ++ username ++ lit "/enable", method := lit "PUT",
      data := none }

/-- The history after one invocation of `Call` with the given arguments: the invocation
is recorded, and a request is handed to the client when, and only when,
`http.NewRequest` accepts the method and the string `NextcloudUrl + url`. -/
def World.afterCall (env : Env) (ncapi : NextcloudApi) (w : World) (c : CallRecord) : World :=
  { calls := w.calls ++ [c]
    sent :=
      match env.newRequest c.method (ncapi.NextcloudConfig.NextcloudUrl ++ c.url) with
      | none => w.sent ++ [requestCalls ncapi c.url c.method c.data]
      | some _ => w.sent }

/-- The method whose `if err != nil` tail receives the result of `Call`: the operation
itself, except that `AddUserSimple` hands over to `AddUser` and returns what it returns. -/
def Operation.wrapper : Operation → String
  | Operation.addUserSimple _ => "AddUser"
  | op => op.name

/-! ## The email shape of the specification, and sample worlds -/

/-- A printable, non-whitespace byte of a string, in the sense of the specification of the
email shape: an ASCII graphic character `0x21..0x7E`, or a byte of a non-ASCII character
(`0x80` and above; the printability of non-ASCII characters is not modelled). -/
def isPrintableNonSpace (b : Byte) : Bool := (0x21 ≤ b.val ∧ b.val ≤ 0x7E) ∨ 0x80 ≤ b.val

/-- The shape of an email in the words of the specification: "local-part of printable
non-whitespace characters excluding `@`, an `@`, a domain with at least one dot-separated
label of length ≥ 2 in the final segment", i.e. exactly one `@`, before it a non-empty
local part of printable non-whitespace characters, after it a domain that contains at least
one dot and whose last dot-separated label has at least two characters. -/
def specEmailShape (email : GoString) : Bool :=
  match splitByte 0x40 email with
  | [loc, domain] =>
    !loc.isEmpty && loc.all isPrintableNonSpace &&
      decide (2 ≤ (splitByte 0x2E domain).length) &&
      decide (2 ≤ ((splitByte 0x2E domain).getLastD []).length)
  | _ => false

/-- A client configuration used in the examples. -/
def sampleApi : NextcloudApi :=
  { NextcloudConfig :=
      { Username := lit "admin", Password := lit "secret",
        NextcloudUrl := lit "https://cloud.example.org" } }

/-- An envelope whose status fields report a failure of the remote service. -/
def failureEnvelope : OCS :=
  { Meta := { Status := lit "failure", StatusCode := 102, Message := lit "User already exists" } }

/-- An outside world in which every request is answered, with a body that decodes to
`failureEnvelope`. -/
def sampleEnv : Env :=
  { pkgPath := lit "github.com/stakly/nextcloudapi"
    newRequest := fun _ _ => none
    doRequest := fun _ => Except.ok (Except.ok (lit "<ocs><meta><status>failure</status></meta></ocs>"))
    xmlUnmarshal := fun _ => (failureEnvelope, none) }

/-- An outside world in which sending a request times out. -/
def timeoutEnv : Env :=
  { sampleEnv with doRequest := fun _ => Except.error (lit "context deadline exceeded") }

/-- An outside world in which the body is not well-formed XML: decoding stops with an
error after having filled in part of the envelope. -/
def garbledEnv : Env :=
  { sampleEnv with
    doRequest := fun _ => Except.ok (Except.ok (lit "<ocs><meta><status>ok</status>"))
    xmlUnmarshal := fun _ =>
      ({ Meta := { Status := lit "ok" } }, some (lit "XML syntax error on line 1: unexpected EOF")) }

/-- Whether, before the first `?` or `#` of the string, a `%` occurs that is not followed
by two hexadecimal digits. -/
def hasInvalidEscape : GoString → Bool
  | [] => false
  | c :: rest =>
    if c.val = 0x3F ∨ c.val = 0x23 then false
    else if c.val = 0x25 then
      match rest with
      | h :: l :: _ => if ishex h && ishex l then hasInvalidEscape rest else true
      | _ => true
    else hasInvalidEscape rest

/-- One ground on which Go's `url.Parse`, and with it `http.NewRequest`, rejects a string:
the string starts with `http://` or `https://` and has an invalid percent-escape in its
authority or its path (the error `invalid URL escape`). -/
def rejectedByParse (rawURL : GoString) : Bool :=
  (rawURL.take 7 == lit "http://" || rawURL.take 8 == lit "https://") &&
    hasInvalidEscape rawURL

/-- An outside world like `sampleEnv` in which `http.NewRequest` rejects, as Go's does, an
http URL with an invalid percent-escape (the message is shortened, and the other grounds
on which `url.Parse` rejects a string are not modelled). -/
def strictEnv : Env :=
  { sampleEnv with
    newRequest := fun _ rawURL =>
      if rejectedByParse rawURL then some (lit "parse: invalid URL escape") else none }

/-! ## Failures of the outside world -/

/-- The transport step of the invocation `c` of `Call` fails with the message `e`:
`http.NewRequest` rejects the request, or `client.Do` returns an error (a timeout, a
refused connection), or reading the body of the response fails. -/
def transportFails (env : Env) (ncapi : NextcloudApi) (c : CallRecord) (e : GoString) : Prop :=
  env.newRequest c.method (ncapi.NextcloudConfig.NextcloudUrl ++ c.url) = some e ∨
  (env.newRequest c.method (ncapi.NextcloudConfig.NextcloudUrl ++ c.url) = none ∧
    (env.doRequest (requestCalls ncapi c.url c.method c.data) = Except.error e ∨
     env.doRequest (requestCalls ncapi c.url c.method c.data) = Except.ok (Except.error e)))

/-- The response to the invocation `c` of `Call` arrives and its body is malformed XML:
`xml.Unmarshal` fails with the message `e`. -/
def decodeFails (env : Env) (ncapi : NextcloudApi) (c : CallRecord) (e : GoString) : Prop :=
  env.newRequest c.method (ncapi.NextcloudConfig.NextcloudUrl ++ c.url) = none ∧
  ∃ (body : GoString) (decoded : OCS),
    env.doRequest (requestCalls ncapi c.url c.method c.data) = Except.ok (Except.ok body) ∧
    env.xmlUnmarshal body = (decoded, some e)

/-! # Theorems -/

/-! ## Query escaping and form bodies -/

theorem hexDigit_spec : ∀ n, n < 16 →
    ishex (hexDigit n) = true ∧ unhex (hexDigit n) = n ∧
    (hexDigit n).val ≠ 0x26 ∧ (hexDigit n).val ≠ 0x3D ∧ (hexDigit n).val ≠ 0x3B := by
  decide

theorem shouldEscape_false (c : Byte) (h : shouldEscape c = false) :
    c.val ≠ 0x25 ∧ c.val ≠ 0x2B ∧ c.val ≠ 0x26 ∧ c.val ≠ 0x3D ∧ c.val ≠ 0x3B := by
  unfold shouldEscape at h
  split at h
  · omega
  · split at h
    · omega
    · simp at h

theorem escapeByte_noSep (c x : Byte) (hx : x ∈ escapeByte c) : isSep x = false := by
  unfold escapeByte at hx
  by_cases h1 : shouldEscape c = true
  · rw [if_pos h1] at hx
    by_cases h2 : c.val = 0x20
    · rw [if_pos h2] at hx
      simp at hx
      subst hx
      decide
    · rw [if_neg h2] at hx
      have hq : c.val / 16 < 16 := by omega
      have hr : c.val % 16 < 16 := by omega
      have a := hexDigit_spec _ hq
      have b := hexDigit_spec _ hr
      simp only [List.mem_cons, List.mem_singleton, List.not_mem_nil, or_false] at hx
      rcases hx with hx | hx | hx
      · subst hx; decide
      · subst hx; simp [isSep, a.2.2.1, a.2.2.2.1, a.2.2.2.2]
      · subst hx; simp [isSep, b.2.2.1, b.2.2.2.1, b.2.2.2.2]
  · rw [if_neg h1] at hx
    simp at hx
    subst hx
    simp only [Bool.not_eq_true] at h1
    have := shouldEscape_false x h1
    simp [isSep, this.2.2.1, this.2.2.2.1, this.2.2.2.2]

theorem QueryEscape_noSep (s : GoString) (x : Byte) (hx : x ∈ QueryEscape s) : isSep x = false := by
  unfold QueryEscape at hx
  rw [List.mem_flatMap] at hx
  obtain ⟨c, _, hc⟩ := hx
  exact escapeByte_noSep c x hc

theorem QueryUnescape_plain (c : Byte) (rest : GoString) (h1 : c.val ≠ 0x25) (h2 : c.val ≠ 0x2B) :
    QueryUnescape (c :: rest) = (QueryUnescape rest).map (fun t => c :: t) := by
  conv_lhs => unfold QueryUnescape
  simp only [if_neg h1, if_neg h2]

theorem QueryUnescape_plus (rest : GoString) :
    QueryUnescape ((0x2B : Byte) :: rest) = (QueryUnescape rest).map (fun t => (0x20 : Byte) :: t) := by
  conv_lhs => unfold QueryUnescape
  rfl

theorem QueryUnescape_percent (h l : Byte) (rest : GoString) (hh : ishex h = true)
    (hl : ishex l = true) :
    QueryUnescape ((0x25 : Byte) :: h :: l :: rest) =
      (QueryUnescape rest).map (fun t => Fin.ofNat (unhex h * 16 + unhex l) :: t) := by
  conv_lhs => unfold QueryUnescape
  simp [hh, hl]
  intro hne
  exact absurd (by decide) hne

theorem QueryUnescape_escapeByte (c : Byte) (t : GoString) :
    QueryUnescape (escapeByte c ++ t) = (QueryUnescape t).map (fun u => c :: u) := by
  unfold escapeByte
  by_cases h1 : shouldEscape c = true
  · rw [if_pos h1]
    by_cases h2 : c.val = 0x20
    · rw [if_pos h2]
      have : c = (0x20 : Byte) := Fin.ext h2
      subst this
      exact QueryUnescape_plus t
    · rw [if_neg h2]
      have hq : c.val / 16 < 16 := by omega
      have hr : c.val % 16 < 16 := by omega
      have a := hexDigit_spec _ hq
      have b := hexDigit_spec _ hr
      have hc : (Fin.ofNat (c.val / 16 * 16 + c.val % 16) : Byte) = c := by
        apply Fin.ext
        simp [Fin.ofNat]
        omega
      have := QueryUnescape_percent _ _ t a.1 b.1
      rw [a.2.1, b.2.1, hc] at this
      exact this
  · rw [if_neg h1]
    simp only [Bool.not_eq_true] at h1
    have h25 := shouldEscape_false c h1
    exact QueryUnescape_plain c t h25.1 h25.2.1

theorem QueryUnescape_QueryEscape (s : GoString) : QueryUnescape (QueryEscape s) = some s := by
  induction s with
  | nil => rfl
  | cons c t ih =>
    have : QueryEscape (c :: t) = escapeByte c ++ QueryEscape t := by
      simp [QueryEscape]
    rw [this, QueryUnescape_escapeByte, ih]
    rfl

theorem splitByte_noSep (c : Byte) (s : GoString) (h : c ∉ s) : splitByte c s = [s] := by
  induction s with
  | nil => rfl
  | cons b bs ih =>
    have hb : b ≠ c := fun e => h (by simp [e])
    have hbs : c ∉ bs := fun e => h (by simp [e])
    simp [splitByte, hb, ih hbs]

theorem splitByte_append (c : Byte) (a t : GoString) (h : c ∉ a) :
    splitByte c (a ++ c :: t) = a :: splitByte c t := by
  induction a with
  | nil => simp [splitByte]
  | cons b bs ih =>
    have hb : b ≠ c := fun e => h (by simp [e])
    have hbs : c ∉ bs := fun e => h (by simp [e])
    simp [splitByte, hb, ih hbs]

theorem cutByte_append (c : Byte) (a t : GoString) (h : c ∉ a) :
    cutByte c (a ++ c :: t) = (a, t) := by
  induction a with
  | nil => simp [cutByte]
  | cons b bs ih =>
    have hb : b ≠ c := fun e => h (by simp [e])
    have hbs : c ∉ bs := fun e => h (by simp [e])
    simp [cutByte, hb, ih hbs]

theorem QueryEscape_not_mem (s : GoString) (x : Byte) (hx : isSep x = true) : x ∉ QueryEscape s := by
  intro h
  have := QueryEscape_noSep s x h
  rw [this] at hx
  exact Bool.noConfusion hx

theorem amp_not_mem_encPair (p : GoString × GoString) : (0x26 : Byte) ∉ encPair p := by
  unfold encPair
  simp only [List.mem_append, List.mem_cons, not_or]
  exact ⟨QueryEscape_not_mem _ _ (by decide), by decide, QueryEscape_not_mem _ _ (by decide)⟩

theorem parsePiece_encPair (p : GoString × GoString) : parsePiece (encPair p) = some p := by
  have hcut : cutByte 0x3D (encPair p) = (QueryEscape p.1, QueryEscape p.2) :=
    cutByte_append _ _ _ (QueryEscape_not_mem _ _ (by decide))
  have hsemi : (encPair p).any (fun b => b.val == 0x3B) = false := by
    rw [List.any_eq_false]
    intro x hx
    unfold encPair at hx
    simp only [List.mem_append, List.mem_cons] at hx
    rcases hx with hx | hx | hx
    · have := QueryEscape_noSep _ _ hx
      simp [isSep] at this
      simp [this.2]
    · subst hx; decide
    · have := QueryEscape_noSep _ _ hx
      simp [isSep] at this
      simp [this.2]
  have hne : encPair p ≠ [] := by
    unfold encPair
    simp
  unfold parsePiece
  rw [hsemi, hcut]
  simp [hne, QueryUnescape_QueryEscape]

theorem parseQuery_tail (p : GoString × GoString) (rest : List (GoString × GoString)) :
    (splitByte 0x26 (encPair p ++ rest.flatMap (fun q => (0x26 : Byte) :: encPair q))).filterMap
      parsePiece = p :: rest := by
  induction rest generalizing p with
  | nil =>
    simp [splitByte_noSep _ _ (amp_not_mem_encPair p), parsePiece_encPair]
  | cons q qs ih =>
    have : encPair p ++ (q :: qs).flatMap (fun q => (0x26 : Byte) :: encPair q) =
        encPair p ++ (0x26 : Byte) :: (encPair q ++ qs.flatMap (fun q => (0x26 : Byte) :: encPair q)) := by
      simp
    rw [this, splitByte_append _ _ _ (amp_not_mem_encPair p)]
    simp [parsePiece_encPair, ih q]

theorem parseQuery_renderFields (ps : List (GoString × GoString)) :
    parseQuery (renderFields ps) = ps := by
  cases ps with
  | nil => rfl
  | cons p rest => exact parseQuery_tail p rest

theorem encPair_ne_nil (p : GoString × GoString) : encPair p ≠ [] := by
  unfold encPair
  simp

theorem foldl_encodeStep_ne (ps : List (GoString × GoString)) (buf : GoString) (h : buf ≠ []) :
    ps.foldl (fun b p => encodeStep (QueryEscape p.1) b p.2) buf =
      buf ++ ps.flatMap (fun q => (0x26 : Byte) :: encPair q) := by
  induction ps generalizing buf with
  | nil => simp
  | cons p rest ih =>
    have hlen : buf.length > 0 := List.length_pos.mpr h
    have hstep : encodeStep (QueryEscape p.1) buf p.2 = buf ++ (0x26 : Byte) :: encPair p := by
      unfold encodeStep encPair
      rw [if_pos hlen]
      simp
    rw [List.foldl_cons, hstep, ih _ (by simp)]
    simp

theorem foldl_encodeStep (ps : List (GoString × GoString)) :
    ps.foldl (fun b p => encodeStep (QueryEscape p.1) b p.2) [] = renderFields ps := by
  cases ps with
  | nil => rfl
  | cons p rest =>
    have hstep : encodeStep (QueryEscape p.1) [] p.2 = encPair p := by
      unfold encodeStep encPair
      simp
    rw [List.foldl_cons, hstep, foldl_encodeStep_ne _ _ (encPair_ne_nil p)]
    rfl

theorem foldl_keys (v : Values) (keys : List GoString) (buf : GoString) :
    keys.foldl (fun buf k => (Values.get v k).foldl (encodeStep (QueryEscape k)) buf) buf =
      (keys.flatMap (fun k => (Values.get v k).map (fun x => (k, x)))).foldl
        (fun b p => encodeStep (QueryEscape p.1) b p.2) buf := by
  induction keys generalizing buf with
  | nil => rfl
  | cons k ks ih =>
    rw [List.foldl_cons, ih, List.flatMap_cons, List.foldl_append, List.foldl_map]

theorem Encode_eq_renderFields (v : Values) : Values.Encode v = renderFields (Values.fields v) := by
  unfold Values.Encode Values.fields
  rw [foldl_keys, foldl_encodeStep]

theorem parseQuery_Encode (v : Values) : parseQuery (Values.Encode v) = Values.fields v := by
  rw [Encode_eq_renderFields, parseQuery_renderFields]

/-! ### The form values of `AddUser` -/

theorem Values.get_absent (v : Values) (key : GoString) (h : key ∉ v.map Prod.fst) :
    Values.get v key = [] := by
  induction v with
  | nil => rfl
  | cons e rest ih =>
    obtain ⟨k, vs⟩ := e
    have hk : k ≠ key := fun e => h (by simp [e])
    have hr : key ∉ rest.map Prod.fst := fun e => h (by simp [e])
    simp [Values.get, hk, ih hr]

theorem Values.set_absent (v : Values) (key : GoString) (vs : List GoString)
    (h : key ∉ v.map Prod.fst) : Values.set v key vs = v ++ [(key, vs)] := by
  induction v with
  | nil => rfl
  | cons e rest ih =>
    obtain ⟨k, old⟩ := e
    have hk : k ≠ key := fun e => h (by simp [e])
    have hr : key ∉ rest.map Prod.fst := fun e => h (by simp [e])
    simp [Values.set, hk, ih hr]

theorem Values.get_last (v : Values) (key : GoString) (acc : List GoString)
    (h : key ∉ v.map Prod.fst) : Values.get (v ++ [(key, acc)]) key = acc := by
  induction v with
  | nil => simp [Values.get]
  | cons e rest ih =>
    obtain ⟨k, old⟩ := e
    have hk : k ≠ key := fun e => h (by simp [e])
    have hr : key ∉ rest.map Prod.fst := fun e => h (by simp [e])
    simp [Values.get, hk]
    simpa using ih hr

theorem Values.set_last (v : Values) (key : GoString) (acc vs : List GoString)
    (h : key ∉ v.map Prod.fst) : Values.set (v ++ [(key, acc)]) key vs = v ++ [(key, vs)] := by
  induction v with
  | nil => simp [Values.set]
  | cons e rest ih =>
    obtain ⟨k, old⟩ := e
    have hk : k ≠ key := fun e => h (by simp [e])
    have hr : key ∉ rest.map Prod.fst := fun e => h (by simp [e])
    simp [Values.set, hk]
    simpa using ih hr

theorem foldl_Add_last (v : Values) (key : GoString) (acc gs : List GoString)
    (h : key ∉ v.map Prod.fst) :
    gs.foldl (fun d g => Values.Add d key g) (v ++ [(key, acc)]) = v ++ [(key, acc ++ gs)] := by
  induction gs generalizing acc with
  | nil => simp
  | cons g rest ih =>
    rw [List.foldl_cons]
    have : Values.Add (v ++ [(key, acc)]) key g = v ++ [(key, acc ++ [g])] := by
      unfold Values.Add
      rw [Values.get_last v key acc h, Values.set_last v key acc _ h]
    rw [this, ih]
    simp

theorem foldl_Add (v : Values) (key : GoString) (g : GoString) (gs : List GoString)
    (h : key ∉ v.map Prod.fst) :
    (g :: gs).foldl (fun d g => Values.Add d key g) v = v ++ [(key, g :: gs)] := by
  rw [List.foldl_cons]
  have : Values.Add v key g = v ++ [(key, [g])] := by
    unfold Values.Add
    rw [Values.get_absent v key h, Values.set_absent v key _ h]
    rfl
  rw [this, foldl_Add_last v key [g] gs h]
  rfl

theorem fields_addUserData (user : User) :
    Values.fields (addUserData user) = addUserFields user := by
  obtain ⟨U, P, DN, E, Q, L, G, S⟩ := user
  cases G with
  | nil =>
    cases S with
    | nil => rfl
    | cons s ss =>
      have h : addUserData ⟨U, P, DN, E, Q, L, [], s :: ss⟩ =
          [(lit "userid", [U]), (lit "password", [P]), (lit "displayName", [DN]),
           (lit "email", [E]), (lit "quota", [Q]), (lit "language", [L])] ++
            [(lit "subadmin[]", s :: ss)] := by
        unfold addUserData
        simp only [List.length_nil, List.length_cons, gt_iff_lt, lt_self_iff_false, if_false,
          Nat.zero_lt_succ, if_true]
        exact foldl_Add _ _ s ss (by simp only [List.map_cons, List.map_nil]; decide)
      rw [h]
      rfl
  | cons g gs =>
    cases S with
    | nil =>
      have h : addUserData ⟨U, P, DN, E, Q, L, g :: gs, []⟩ =
          [(lit "userid", [U]), (lit "password", [P]), (lit "displayName", [DN]),
           (lit "email", [E]), (lit "quota", [Q]), (lit "language", [L])] ++
            [(lit "groups[]", g :: gs)] := by
        unfold addUserData
        simp only [List.length_nil, List.length_cons, gt_iff_lt, lt_self_iff_false, if_false,
          Nat.zero_lt_succ, if_true]
        exact foldl_Add _ _ g gs (by simp only [List.map_cons, List.map_nil]; decide)
      rw [h]
      have e : Values.fields
          ([(lit "userid", [U]), (lit "password", [P]), (lit "displayName", [DN]),
            (lit "email", [E]), (lit "quota", [Q]), (lit "language", [L])] ++
            [(lit "groups[]", g :: gs)]) =
          (lit "displayName", DN) :: (lit "email", E) ::
            ((g :: gs).map (fun x => (lit "groups[]", x)) ++
              [(lit "language", L), (lit "password", P), (lit "quota", Q),
               (lit "userid", U)]) := rfl
      rw [e]
      simp [addUserFields]
    | cons s ss =>
      have h : addUserData ⟨U, P, DN, E, Q, L, g :: gs, s :: ss⟩ =
          ([(lit "userid", [U]), (lit "password", [P]), (lit "displayName", [DN]),
           (lit "email", [E]), (lit "quota", [Q]), (lit "language", [L])] ++
            [(lit "groups[]", g :: gs)]) ++ [(lit "subadmin[]", s :: ss)] := by
        unfold addUserData
        simp only [List.length_nil, List.length_cons, gt_iff_lt, lt_self_iff_false, if_false,
          Nat.zero_lt_succ, if_true]
        rw [foldl_Add _ _ g gs (by simp only [List.map_cons, List.map_nil]; decide)]
        exact foldl_Add _ _ s ss (by simp only [List.map_cons, List.map_nil, List.map_append]; decide)
      rw [h]
      have e : Values.fields
          (([(lit "userid", [U]), (lit "password", [P]), (lit "displayName", [DN]),
            (lit "email", [E]), (lit "quota", [Q]), (lit "language", [L])] ++
            [(lit "groups[]", g :: gs)]) ++ [(lit "subadmin[]", s :: ss)]) =
          (lit "displayName", DN) :: (lit "email", E) ::
            ((g :: gs).map (fun x => (lit "groups[]", x)) ++
              ((lit "language", L) :: (lit "password", P) :: (lit "quota", Q) ::
                ((s :: ss).map (fun x => (lit "subadmin[]", x)) ++ [(lit "userid", U)]))) := rfl
      rw [e]
      simp [addUserFields]

theorem AddUser_calls (env : Env) (ncapi : NextcloudApi) (user : User) (w : World) :
    (AddUser env ncapi user w).2.calls =
      w.calls ++ [{ url := apiRoutes.users, method := lit "POST",
                    data := some (Values.Encode (addUserData user)) }] := by
  unfold AddUser returnFrom Call
  cases env.newRequest (lit "POST") (ncapi.NextcloudConfig.NextcloudUrl ++ apiRoutes.users) with
  | some e => rfl
  | none =>
    simp only
    cases env.doRequest _ with
    | error e => rfl
    | ok resp =>
      cases resp with
      | error e => rfl
      | ok body =>
        simp only
        rcases env.xmlUnmarshal body with ⟨osc, _ | e⟩ <;> rfl

theorem addUserFields_eq (user : User) :
    addUserFields user =
      (addUserSegments user).flatMap (fun s => s.2.map (fun x => (s.1, x))) := by
  simp [addUserFields, addUserSegments]

theorem filter_segments (segs : Values) (key : GoString) :
    ((segs.flatMap (fun s => s.2.map (fun x => (s.1, x)))).filter (fun f => f.1 = key)).map
      Prod.snd = (segs.filter (fun s => s.1 = key)).flatMap Prod.snd := by
  induction segs with
  | nil => rfl
  | cons s rest ih =>
    obtain ⟨k, vs⟩ := s
    rw [List.flatMap_cons, List.filter_append, List.map_append, ih]
    by_cases h : k = key
    · subst h
      have : (List.filter (fun f => decide (f.1 = k)) (List.map (fun x => (k, x)) vs)) =
          List.map (fun x => (k, x)) vs := by
        rw [List.filter_eq_self]
        intro a ha
        rw [List.mem_map] at ha
        obtain ⟨x, _, rfl⟩ := ha
        simp
      simp [this, List.filter_cons]
    · have : (List.filter (fun f => decide (f.1 = key)) (List.map (fun x => (k, x)) vs)) = [] := by
        rw [List.filter_eq_nil_iff]
        intro a ha
        rw [List.mem_map] at ha
        obtain ⟨x, _, rfl⟩ := ha
        simp [h]
      simp [this, h, List.filter_cons]

theorem fieldValues_addUser (user : User) (key : GoString) :
    fieldValues (Values.Encode (addUserData user)) key =
      ((addUserSegments user).filter (fun s => s.1 = key)).flatMap Prod.snd := by
  unfold fieldValues
  rw [parseQuery_Encode, fields_addUserData, addUserFields_eq, filter_segments]

/-! ## The regular expression matcher and the email pattern -/

theorem Regex.nullable_iff (r : Regex) : r.nullable = true ↔ [] ∈ r.Lang := by
  induction r with
  | nothing => simp [Regex.nullable, Regex.Lang, Language.not_mem_zero]
  | empty => simp [Regex.nullable, Regex.Lang, Language.mem_one]
  | cls p =>
    simp only [Regex.nullable, Regex.Lang]
    constructor
    · intro h; exact absurd h (by simp)
    · rintro ⟨c, _, h⟩; exact absurd h (by simp)
  | cat r s ihr ihs =>
    simp only [Regex.nullable, Regex.Lang, Bool.and_eq_true, ihr, ihs, Language.mem_mul]
    constructor
    · rintro ⟨h1, h2⟩; exact ⟨[], h1, [], h2, rfl⟩
    · rintro ⟨a, ha, b, hb, hab⟩
      have := List.append_eq_nil.mp hab
      rw [this.1] at ha
      rw [this.2] at hb
      exact ⟨ha, hb⟩
  | alt r s ihr ihs =>
    simp only [Regex.nullable, Regex.Lang, Bool.or_eq_true, ihr, ihs, Language.mem_add]
  | star r _ =>
    simp only [Regex.nullable, Regex.Lang, true_iff]
    exact Language.nil_mem_kstar _

theorem Regex.deriv_iff (r : Regex) (a : Nat) (x : List Nat) :
    x ∈ (r.deriv a).Lang ↔ a :: x ∈ r.Lang := by
  induction r generalizing x with
  | nothing => simp [Regex.deriv, Regex.Lang, Language.not_mem_zero]
  | empty => simp [Regex.deriv, Regex.Lang, Language.not_mem_zero, Language.mem_one]
  | cls p =>
    simp only [Regex.deriv, Regex.Lang]
    by_cases hp : p a = true
    · rw [if_pos hp]
      simp only [Regex.Lang, Language.mem_one]
      constructor
      · intro hx; exact ⟨a, hp, by rw [hx]⟩
      · rintro ⟨c, _, h⟩
        simp only [List.cons.injEq] at h
        exact h.2
    · rw [if_neg hp]
      simp only [Regex.Lang]
      constructor
      · intro hx; exact absurd hx (Language.not_mem_zero _)
      · rintro ⟨c, hc, h⟩
        simp only [List.cons.injEq] at h
        rw [← h.1] at hc
        exact absurd hc hp
  | cat r s ihr ihs =>
    have key : a :: x ∈ r.Lang * s.Lang ↔
        (∃ t u, x = t ++ u ∧ a :: t ∈ r.Lang ∧ u ∈ s.Lang) ∨ ([] ∈ r.Lang ∧ a :: x ∈ s.Lang) := by
      rw [Language.mem_mul]
      constructor
      · rintro ⟨p, hp, q, hq, hpq⟩
        cases p with
        | nil =>
          right
          simp only [List.nil_append] at hpq
          rw [hpq] at hq
          exact ⟨hp, hq⟩
        | cons b t =>
          left
          simp only [List.cons_append, List.cons.injEq] at hpq
          refine ⟨t, q, hpq.2.symm, ?_, hq⟩
          rw [← hpq.1]
          exact hp
      · rintro (⟨t, u, hx, ht, hu⟩ | ⟨h1, h2⟩)
        · exact ⟨a :: t, ht, u, hu, by rw [hx]; rfl⟩
        · exact ⟨[], h1, a :: x, h2, rfl⟩
    have left : x ∈ ((r.deriv a).cat s).Lang ↔ ∃ t u, x = t ++ u ∧ a :: t ∈ r.Lang ∧ u ∈ s.Lang := by
      simp only [Regex.Lang, Language.mem_mul]
      constructor
      · rintro ⟨t, ht, u, hu, h⟩
        exact ⟨t, u, h.symm, (ihr t).mp ht, hu⟩
      · rintro ⟨t, u, h, ht, hu⟩
        exact ⟨t, (ihr t).mpr ht, u, hu, h.symm⟩
    show x ∈ (if r.nullable then _ else _ : Regex).Lang ↔ a :: x ∈ r.Lang * s.Lang
    rw [key]
    by_cases hn : r.nullable = true
    · rw [if_pos hn]
      have hnil := (Regex.nullable_iff r).mp hn
      show x ∈ ((r.deriv a).cat s).Lang + (s.deriv a).Lang ↔ _
      rw [Language.mem_add, left, ihs]
      simp [hnil]
    · rw [if_neg hn]
      have hnil : [] ∉ r.Lang := fun h => hn ((Regex.nullable_iff r).mpr h)
      rw [left]
      simp [hnil]
  | alt r s ihr ihs =>
    simp only [Regex.deriv, Regex.Lang, Language.mem_add, ihr, ihs]
  | star r ih =>
    simp only [Regex.deriv, Regex.Lang, Language.mem_mul]
    constructor
    · rintro ⟨t, ht, u, hu, h⟩
      rw [Language.mem_kstar] at hu ⊢
      obtain ⟨S, hS, hall⟩ := hu
      refine ⟨(a :: t) :: S, ?_, ?_⟩
      · rw [← h, hS]; rfl
      · intro y hy
        rcases List.mem_cons.mp hy with rfl | hy
        · exact (ih t).mp ht
        · exact hall y hy
    · intro h
      rw [Language.mem_kstar_iff_exists_nonempty] at h
      obtain ⟨S, hS, hall⟩ := h
      cases S with
      | nil => exact absurd hS (by simp)
      | cons y U =>
        have hy := hall y (by simp)
        cases y with
        | nil => exact absurd rfl hy.2
        | cons b t =>
          simp only [List.flatten, List.cons_append, List.cons.injEq] at hS
          refine ⟨t, (ih t).mpr ?_, U.flatten, ?_, hS.2.symm⟩
          · rw [hS.1]; exact hy.1
          · exact Language.join_mem_kstar (fun z hz => (hall z (by simp [hz])).1)

theorem Regex.matchRunes_iff (r : Regex) (s : List Nat) : r.matchRunes s = true ↔ s ∈ r.Lang := by
  induction s generalizing r with
  | nil => exact Regex.nullable_iff r
  | cons a t ih =>
    have : r.matchRunes (a :: t) = (r.deriv a).matchRunes t := rfl
    rw [this, ih, Regex.deriv_iff]

theorem Lang_cls (p : Nat → Bool) (s : List Nat) :
    s ∈ (Regex.cls p).Lang ↔ ∃ c, p c = true ∧ s = [c] := Iff.rfl

theorem Lang_star_cls (p : Nat → Bool) (s : List Nat) :
    s ∈ (Regex.star (Regex.cls p)).Lang ↔ ∀ c ∈ s, p c = true := by
  show s ∈ KStar.kstar (Regex.cls p).Lang ↔ _
  rw [Language.mem_kstar]
  constructor
  · rintro ⟨S, rfl, hall⟩ c hc
    rw [List.mem_flatten] at hc
    obtain ⟨y, hy, hcy⟩ := hc
    obtain ⟨d, hd, rfl⟩ := hall y hy
    simp only [List.mem_singleton] at hcy
    rw [hcy]; exact hd
  · intro h
    refine ⟨s.map (fun c => [c]), ?_, ?_⟩
    · induction s with
      | nil => rfl
      | cons a t ih =>
        simp only [List.map_cons, List.flatten, List.singleton_append, List.cons.injEq, true_and]
        exact ih (fun c hc => h c (List.mem_cons_of_mem _ hc))
    · intro y hy
      rw [List.mem_map] at hy
      obtain ⟨c, hc, rfl⟩ := hy
      exact ⟨c, h c hc, rfl⟩

theorem Lang_plus_cls (p : Nat → Bool) (s : List Nat) :
    s ∈ (Regex.plus (Regex.cls p)).Lang ↔ s ≠ [] ∧ ∀ c ∈ s, p c = true := by
  show s ∈ (Regex.cls p).Lang * (Regex.star (Regex.cls p)).Lang ↔ _
  rw [Language.mem_mul]
  constructor
  · rintro ⟨a, ⟨c, hc, rfl⟩, b, hb, rfl⟩
    rw [Lang_star_cls] at hb
    refine ⟨by simp, ?_⟩
    intro x hx
    simp only [List.singleton_append, List.mem_cons] at hx
    rcases hx with rfl | hx
    · exact hc
    · exact hb x hx
  · rintro ⟨hne, h⟩
    cases s with
    | nil => exact absurd rfl hne
    | cons c t =>
      refine ⟨[c], ⟨c, h c (by simp), rfl⟩, t, ?_, rfl⟩
      rw [Lang_star_cls]
      exact fun x hx => h x (List.mem_cons_of_mem _ hx)

theorem Lang_plus (r : Regex) (s : List Nat) :
    s ∈ (Regex.plus r).Lang ↔ ∃ S : List (List Nat), S ≠ [] ∧ s = S.flatten ∧ ∀ y ∈ S, y ∈ r.Lang := by
  show s ∈ r.Lang * KStar.kstar r.Lang ↔ _
  rw [Language.mem_mul]
  constructor
  · rintro ⟨a, ha, b, hb, rfl⟩
    rw [Language.mem_kstar] at hb
    obtain ⟨S, rfl, hall⟩ := hb
    refine ⟨a :: S, by simp, rfl, ?_⟩
    intro y hy
    rcases List.mem_cons.mp hy with rfl | hy
    · exact ha
    · exact hall y hy
  · rintro ⟨S, hne, rfl, hall⟩
    cases S with
    | nil => exact absurd rfl hne
    | cons a U =>
      exact ⟨a, hall a (by simp), U.flatten,
        Language.join_mem_kstar (fun z hz => hall z (by simp [hz])), rfl⟩

theorem Lang_label (s : List Nat) :
    s ∈ labelPattern.Lang ↔
      ∃ d, s = 0x2E :: d ∧ 2 ≤ d.length ∧ ∀ c ∈ d, domainClass c = true := by
  show s ∈ (Regex.cls (fun r => r == 0x2E)).Lang *
      ((Regex.cls domainClass).Lang * (Regex.plus (Regex.cls domainClass)).Lang) ↔ _
  simp only [Language.mem_mul, Lang_cls, Lang_plus_cls]
  constructor
  · rintro ⟨_, ⟨c, hc, rfl⟩, _, ⟨_, ⟨e, he, rfl⟩, t, ⟨hne, ht⟩, rfl⟩, rfl⟩
    have hc' : c = 0x2E := by simpa using hc
    subst hc'
    refine ⟨e :: t, rfl, ?_, ?_⟩
    · cases t with
      | nil => exact absurd rfl hne
      | cons _ _ => simp
    · intro x hx
      rcases List.mem_cons.mp hx with rfl | hx
      · exact he
      · exact ht x hx
  · rintro ⟨d, rfl, hlen, hall⟩
    match d, hlen, hall with
    | e :: f :: t, _, hall =>
      exact ⟨[0x2E], ⟨0x2E, by simp, rfl⟩, e :: f :: t,
        ⟨[e], ⟨e, hall e (by simp), rfl⟩, f :: t, ⟨by simp, fun x hx => hall x (by simp [hx])⟩, rfl⟩,
        rfl⟩

theorem Lang_emailPattern (rs : List Nat) : rs ∈ emailPattern.Lang ↔ EmailShape rs := by
  show rs ∈ (Regex.plus (Regex.cls localClass)).Lang *
      ((Regex.cls (fun r => r == 0x40)).Lang *
        ((Regex.plus (Regex.cls domainClass)).Lang * (Regex.plus labelPattern).Lang)) ↔ _
  simp only [Language.mem_mul, Lang_cls, Lang_plus_cls, Lang_plus labelPattern, Lang_label]
  constructor
  · rintro ⟨loc, ⟨hloc, hlocall⟩, _, ⟨_, ⟨c, hc, rfl⟩, _, ⟨d0, ⟨hd0, hd0all⟩, _,
      ⟨S, hS, rfl, hSall⟩, rfl⟩, rfl⟩, rfl⟩
    have hc' : c = 0x40 := by simpa using hc
    subst hc'
    refine ⟨loc, d0, S.map (fun y => y.tail), ?_, hloc, hlocall, hd0, hd0all, ?_, ?_⟩
    · have : S.flatten = (S.map (fun y => y.tail)).flatMap (fun d => 0x2E :: d) := by
        clear hS
        induction S with
        | nil => rfl
        | cons y U ih =>
          obtain ⟨d, rfl, _⟩ := hSall y (by simp)
          simp only [List.flatten, List.map_cons, List.tail_cons, List.flatMap_cons]
          rw [ih (fun z hz => hSall z (by simp [hz]))]
      rw [this]
      simp
    · simpa using hS
    · intro d hd
      rw [List.mem_map] at hd
      obtain ⟨y, hy, rfl⟩ := hd
      obtain ⟨d, rfl, h2, hall⟩ := hSall y hy
      exact ⟨h2, hall⟩
  · rintro ⟨loc, d0, ds, rfl, hloc, hlocall, hd0, hd0all, hds, hdsall⟩
    refine ⟨loc, ⟨hloc, hlocall⟩, _, ⟨[0x40], ⟨0x40, by simp, rfl⟩, _,
      ⟨d0, ⟨hd0, hd0all⟩, _, ⟨ds.map (fun d => 0x2E :: d), by simpa using hds, ?_, ?_⟩, rfl⟩, rfl⟩, rfl⟩
    · simp [List.flatMap]
    · intro y hy
      rw [List.mem_map] at hy
      obtain ⟨d, hd, rfl⟩ := hy
      exact ⟨d, rfl, hdsall d hd⟩

theorem DecodeRune_simple (b : Byte) (bs : GoString) (hr : (DecodeRune (b :: bs)).1 < 0x80 ∨
    (DecodeRune (b :: bs)).1 = 0x2019) :
    (b.val < 0x80 ∧ DecodeRune (b :: bs) = (b.val, 1)) ∨
    (∃ rest, b = 0xE2 ∧ bs = 0x80 :: 0x99 :: rest ∧ DecodeRune (b :: bs) = (0x2019, 3)) := by
  simp only [DecodeRune] at hr ⊢
  by_cases h0 : b.val < 0x80
  · left
    exact ⟨h0, by rw [if_pos h0]⟩
  · right
    rw [if_neg h0] at hr ⊢
    by_cases h2 : 0xC2 ≤ b.val ∧ b.val ≤ 0xDF
    · rw [if_pos h2] at hr
      exfalso
      rcases bs with _ | ⟨b1, rest⟩
      · simp [RuneError] at hr
      · by_cases hc : isCont b1 = true
        · simp only [hc, if_true] at hr; omega
        · simp [hc, RuneError] at hr
    · rw [if_neg h2] at hr ⊢
      by_cases h3 : 0xE0 ≤ b.val ∧ b.val ≤ 0xEF
      · rw [if_pos h3] at hr ⊢
        rcases bs with _ | ⟨b1, _ | ⟨b2, rest⟩⟩
        · simp [RuneError] at hr
        · simp [RuneError] at hr
        · by_cases hc : (if b.val = 0xE0 then 0xA0 else 0x80) ≤ b1.val ∧
              b1.val ≤ (if b.val = 0xED then 0x9F else 0xBF) ∧ isCont b2 = true
          · simp only [hc, and_self, if_true] at hr
            simp only [isCont, decide_eq_true_eq] at hc
            have hb : b.val = 0xE2 ∧ b1.val = 0x80 ∧ b2.val = 0x99 := by
              split_ifs at hc <;> omega
            have e0 : b = 0xE2 := Fin.ext hb.1
            have e1 : b1 = 0x80 := Fin.ext hb.2.1
            have e2 : b2 = 0x99 := Fin.ext hb.2.2
            subst e0 e1 e2
            exact ⟨rest, rfl, rfl, rfl⟩
          · simp [hc, RuneError] at hr
      · rw [if_neg h3] at hr
        exfalso
        by_cases h4 : 0xF0 ≤ b.val ∧ b.val ≤ 0xF4
        · rw [if_pos h4] at hr
          rcases bs with _ | ⟨b1, _ | ⟨b2, _ | ⟨b3, rest⟩⟩⟩
          · simp [RuneError] at hr
          · simp [RuneError] at hr
          · simp [RuneError] at hr
          · by_cases hc : (if b.val = 0xF0 then 0x90 else 0x80) ≤ b1.val ∧
                b1.val ≤ (if b.val = 0xF4 then 0x8F else 0xBF) ∧ isCont b2 = true ∧
                isCont b3 = true
            · simp only [hc, and_self, if_true] at hr
              simp only [isCont, decide_eq_true_eq] at hc
              split_ifs at hc <;> omega
            · simp [hc, RuneError] at hr
        · rw [if_neg h4] at hr
          simp [RuneError] at hr

theorem runes_cons (b : Byte) (bs : GoString) :
    runes (b :: bs) = (DecodeRune (b :: bs)).1 :: runesFrom ((DecodeRune (b :: bs)).2 - 1) bs := rfl

theorem encodeRune_ascii (b : Byte) (h : b.val < 0x80) : encodeRune b.val = [b] := by
  unfold encodeRune
  rw [if_pos h]
  have : (Fin.ofNat b.val : Byte) = b := by
    apply Fin.ext
    simp [Fin.ofNat]
  rw [this]

theorem bytes_of_runes (n : Nat) : ∀ s : GoString, s.length ≤ n →
    (∀ r ∈ runes s, r < 0x80 ∨ r = 0x2019) → s = (runes s).flatMap encodeRune := by
  induction n with
  | zero =>
    intro s hs _
    have : s = [] := List.length_eq_zero.mp (Nat.le_zero.mp hs)
    subst this
    rfl
  | succ n ih =>
    intro s hs h
    cases s with
    | nil => rfl
    | cons b bs =>
      rw [runes_cons] at h ⊢
      have hhead := h _ (List.mem_cons_self _ _)
      rcases DecodeRune_simple b bs hhead with ⟨hb, hd⟩ | ⟨rest, hb, hbs, hd⟩
      · rw [hd] at h ⊢
        have hlen : bs.length ≤ n := by simpa using hs
        have hrest : ∀ r ∈ runes bs, r < 0x80 ∨ r = 0x2019 :=
          fun r hr => h r (List.mem_cons_of_mem _ hr)
        have := ih bs hlen hrest
        show b :: bs = encodeRune b.val ++ (runes bs).flatMap encodeRune
        rw [encodeRune_ascii b hb, ← this]
        rfl
      · subst hb hbs
        rw [hd] at h ⊢
        have hlen : rest.length ≤ n := by
          simp only [List.length_cons] at hs
          omega
        have hrest : ∀ r ∈ runes rest, r < 0x80 ∨ r = 0x2019 :=
          fun r hr => h r (List.mem_cons_of_mem _ hr)
        have := ih rest hlen hrest
        show (0xE2 : Byte) :: 0x80 :: 0x99 :: rest = encodeRune 0x2019 ++ (runes rest).flatMap encodeRune
        rw [← this]
        rfl

theorem localClass_eq (c : Nat) :
    localClass c = (isAlnum c ||
      [0x2E, 0x21, 0x23, 0x24, 0x25, 0x26, 0x2019, 0x2A, 0x2B, 0x2F, 0x3D, 0x3F, 0x5E, 0x5F,
        0x60, 0x7B, 0x7C, 0x7D, 0x7E, 0x2D].any (fun n => n == c)) := rfl

theorem localClass_simple (c : Nat) (h : localClass c = true) :
    (c < 0x80 ∨ c = 0x2019) ∧ c ≠ 0x40 := by
  rw [localClass_eq] at h
  simp only [isAlnum, List.any_cons, List.any_nil, Bool.or_eq_true,
    decide_eq_true_eq, beq_iff_eq, Bool.or_false] at h
  omega

theorem domainClass_simple (c : Nat) (h : domainClass c = true) : c < 0x80 ∧ c ≠ 0x40 := by
  simp only [domainClass, isAlnum, Bool.or_eq_true, decide_eq_true_eq, beq_iff_eq] at h
  omega

theorem emailValid_iff (email : GoString) : emailValid email = true ↔ EmailShape (runes email) := by
  unfold emailValid
  rw [Regex.matchRunes_iff, Lang_emailPattern]

theorem encodeRune_ne_nil (r : Nat) : encodeRune r ≠ [] := by
  unfold encodeRune
  split_ifs <;> simp

theorem at_not_mem_encodeRune (r : Nat) (h : (r < 0x80 ∨ r = 0x2019) ∧ r ≠ 0x40) :
    (0x40 : Byte) ∉ encodeRune r := by
  rcases h with ⟨h1 | h1, h2⟩
  · unfold encodeRune
    rw [if_pos h1]
    simp only [List.mem_singleton]
    intro e
    have := congrArg Fin.val e
    simp [Fin.ofNat] at this
    omega
  · subst h1
    decide

theorem at_not_mem_encode (rs : List Nat) (h : ∀ r ∈ rs, (r < 0x80 ∨ r = 0x2019) ∧ r ≠ 0x40) :
    (0x40 : Byte) ∉ rs.flatMap encodeRune := by
  intro hm
  rw [List.mem_flatMap] at hm
  obtain ⟨r, hr, hmem⟩ := hm
  exact at_not_mem_encodeRune r (h r hr) hmem

theorem emailValid_bytes (email : GoString) (h : emailValid email = true) :
    ∃ loc dom : GoString, email = loc ++ (0x40 : Byte) :: dom ∧ loc ≠ [] ∧
      (0x40 : Byte) ∉ loc ∧ (0x40 : Byte) ∉ dom := by
  rw [emailValid_iff] at h
  obtain ⟨L, d0, ds, hrs, hL, hLall, hd0, hd0all, hds, hdsall⟩ := h
  have hR : ∀ r ∈ d0 ++ ds.flatMap (fun d => 0x2E :: d), (r < 0x80 ∨ r = 0x2019) ∧ r ≠ 0x40 := by
    intro r hr
    rw [List.mem_append] at hr
    rcases hr with hr | hr
    · have := domainClass_simple r (hd0all r hr)
      exact ⟨Or.inl this.1, this.2⟩
    · rw [List.mem_flatMap] at hr
      obtain ⟨d, hd, hrd⟩ := hr
      rcases List.mem_cons.mp hrd with rfl | hrd
      · exact ⟨Or.inl (by decide), by decide⟩
      · have := domainClass_simple r ((hdsall d hd).2 r hrd)
        exact ⟨Or.inl this.1, this.2⟩
  have hsimple : ∀ r ∈ runes email, r < 0x80 ∨ r = 0x2019 := by
    intro r hr
    rw [hrs, List.mem_append] at hr
    rcases hr with hr | hr
    · exact (localClass_simple r (hLall r hr)).1
    · rcases List.mem_cons.mp hr with rfl | hr
      · exact Or.inl (by decide)
      · exact (hR r hr).1
  have hbytes := bytes_of_runes email.length email (le_refl _) hsimple
  rw [hrs] at hbytes
  refine ⟨L.flatMap encodeRune, (d0 ++ ds.flatMap (fun d => 0x2E :: d)).flatMap encodeRune,
    ?_, ?_, ?_, ?_⟩
  · rw [hbytes]
    simp only [List.flatMap_append, List.flatMap_cons]
    rfl
  · cases L with
    | nil => exact absurd rfl hL
    | cons a t =>
      simp only [List.flatMap_cons]
      intro e
      exact encodeRune_ne_nil a (List.append_eq_nil.mp e).1
  · exact at_not_mem_encode L (fun r hr => localClass_simple r (hLall r hr))
  · exact at_not_mem_encode _ hR

theorem emailUserid_append (loc dom : GoString) (h : (0x40 : Byte) ∉ loc) :
    emailUserid (loc ++ (0x40 : Byte) :: dom) = loc := by
  unfold emailUserid
  rw [splitByte_append _ _ _ h]

/-! ## The operations in normal form -/

theorem Sprintf_wrap (a b : GoString) : Sprintf (lit "%s: %s") [a, b] = a ++ lit ": " ++ b := by
  have : Sprintf (lit "%s: %s") [a, b] = a ++ (lit ": " ++ (b ++ [])) := rfl
  rw [this]
  simp

theorem Sprintf_invalid (a b : GoString) :
    Sprintf (lit "%s: email \x27%s\x27 is not valid") [a, b] =
      a ++ lit ": email \x27" ++ b ++ lit "\x27 is not valid" := by
  have : Sprintf (lit "%s: email \x27%s\x27 is not valid") [a, b] =
      a ++ (lit ": email \x27" ++ (b ++ lit "\x27 is not valid")) := rfl
  rw [this]
  simp

theorem Sprintf_search (q : GoString) :
    Sprintf (lit "%s?search=%s") [apiRoutes.users, q] =
      lit "/ocs/v1.php/cloud/users?search=" ++ q := by
  have : Sprintf (lit "%s?search=%s") [apiRoutes.users, q] =
      lit "/ocs/v1.php/cloud/users?search=" ++ (q ++ []) := rfl
  rw [this]
  simp

theorem Sprintf_user (u : GoString) :
    Sprintf (apiRoutes.users ++ lit "/%s") [u] = lit "/ocs/v1.php/cloud/users/" ++ u := by
  have : Sprintf (apiRoutes.users ++ lit "/%s") [u] =
      lit "/ocs/v1.php/cloud/users/" ++ (u ++ []) := rfl
  rw [this]
  simp

theorem Sprintf_user_groups (u : GoString) :
    Sprintf (apiRoutes.users ++ lit "/%s/groups") [u] =
      lit "/ocs/v1.php/cloud/users/" ++ u ++ lit "/groups" := by
  have : Sprintf (apiRoutes.users ++ lit "/%s/groups") [u] =
      lit "/ocs/v1.php/cloud/users/" ++ (u ++ lit "/groups") := rfl
  rw [this]
  simp

theorem Sprintf_user_welcome (u : GoString) :
    Sprintf (apiRoutes.users ++ lit "/%s/welcome") [u] =
      lit "/ocs/v1.php/cloud/users/" ++ u ++ lit "/welcome" := by
  have : Sprintf (apiRoutes.users ++ lit "/%s/welcome") [u] =
      lit "/ocs/v1.php/cloud/users/" ++ (u ++ lit "/welcome") := rfl
  rw [this]
  simp

theorem Sprintf_user_disable (u : GoString) :
    Sprintf (apiRoutes.users ++ lit "/%s/disable") [u] =
      lit "/ocs/v1.php/cloud/users/" ++ u ++ lit "/disable" := by
  have : Sprintf (apiRoutes.users ++ lit "/%s/disable") [u] =
      lit "/ocs/v1.php/cloud/users/" ++ (u ++ lit "/disable") := rfl
  rw [this]
  simp

theorem Sprintf_user_enable (u : GoString) :
    Sprintf (apiRoutes.users ++ lit "/%s/enable") [u] =
      lit "/ocs/v1.php/cloud/users/" ++ u ++ lit "/enable" := by
  have : Sprintf (apiRoutes.users ++ lit "/%s/enable") [u] =
      lit "/ocs/v1.php/cloud/users/" ++ (u ++ lit "/enable") := rfl
  rw [this]
  simp

theorem Encode_groupid (group : GoString) :
    Values.Encode [(lit "groupid", [group])] = lit "groupid=" ++ QueryEscape group := rfl

theorem MatchString_emailPattern (email : GoString) :
    MatchString emailPattern email = Except.ok (emailValid email) := rfl

theorem AddUserSimple_valid (env : Env) (ncapi : NextcloudApi) (email : GoString) (w : World)
    (h : emailValid email = true) :
    AddUserSimple env ncapi email w =
      AddUser env ncapi { Userid := emailUserid email, Email := email } w := by
  unfold AddUserSimple
  rw [MatchString_emailPattern, h]
  rfl

theorem AddUserSimple_invalid (env : Env) (ncapi : NextcloudApi) (email : GoString) (w : World)
    (h : emailValid email = false) :
    AddUserSimple env ncapi email w =
      ((OCS.zero, some ⟨ErrorKind.validation,
        getCurrentFuncName env "AddUserSimple" ++ lit ": email \x27" ++ email ++ lit "\x27 is not valid"⟩),
       w) := by
  unfold AddUserSimple
  rw [MatchString_emailPattern, h, ← Sprintf_invalid]
  rfl

theorem run_eq (env : Env) (ncapi : NextcloudApi) (op : Operation) (w : World)
    (h : op.reachesTransport = true) :
    op.run env ncapi w =
      returnFrom env op.wrapper
        (Call env ncapi op.callArgs.url op.callArgs.method op.callArgs.data w) := by
  cases op with
  | listUsers searchString =>
    cases searchString with
    | nil => rfl
    | cons first rest =>
      show returnFrom env "ListUsers" (Call env ncapi
        (Sprintf (lit "%s?search=%s") [apiRoutes.users, QueryEscape first]) (lit "GET") none w) = _
      rw [Sprintf_search]
      rfl
  | addUser user => rfl
  | addUserSimple email =>
    show AddUserSimple env ncapi email w = _
    rw [AddUserSimple_valid env ncapi email w h]
    rfl
  | delUser username =>
    show returnFrom env "DelUser" (Call env ncapi
      (Sprintf (apiRoutes.users ++ lit "/%s") [username]) (lit "DELETE") none w) = _
    rw [Sprintf_user]
    rfl
  | addUserInGroup username group =>
    show returnFrom env "AddUserInGroup" (Call env ncapi
      (Sprintf (apiRoutes.users ++ lit "/%s/groups") [username]) (lit "POST")
      (some (Values.Encode [(lit "groupid", [group])])) w) = _
    rw [Sprintf_user_groups, Encode_groupid]
    rfl
  | deleteUserFromGroup username group =>
    show returnFrom env "DeleteUserFromGroup" (Call env ncapi
      (Sprintf (apiRoutes.users ++ lit "/%s/groups") [username]) (lit "DELETE")
      (some (Values.Encode [(lit "groupid", [group])])) w) = _
    rw [Sprintf_user_groups, Encode_groupid]
    rfl
  | resendEmail username =>
    show returnFrom env "ResendEmail" (Call env ncapi
      (Sprintf (apiRoutes.users ++ lit "/%s/welcome") [username]) (lit "POST") none w) = _
    rw [Sprintf_user_welcome]
    rfl
  | disableUser username =>
    show returnFrom env "DisableUser" (Call env ncapi
      (Sprintf (apiRoutes.users ++ lit "/%s/disable") [username]) (lit "PUT") none w) = _
    rw [Sprintf_user_disable]
    rfl
  | enableUser username =>
    show returnFrom env "EnableUser" (Call env ncapi
      (Sprintf (apiRoutes.users ++ lit "/%s/enable") [username]) (lit "PUT") none w) = _
    rw [Sprintf_user_enable]
    rfl

theorem returnFrom_world (env : Env) (fn : String) (r : Result × World) :
    (returnFrom env fn r).2 = r.2 := by
  obtain ⟨⟨resp, _ | err⟩, w⟩ := r <;> rfl

theorem Call_world (env : Env) (ncapi : NextcloudApi) (url method : GoString)
    (data : Option GoString) (w : World) :
    (Call env ncapi url method data w).2 =
      w.afterCall env ncapi { url := url, method := method, data := data } := by
  unfold Call World.afterCall
  simp only
  cases env.newRequest method (ncapi.NextcloudConfig.NextcloudUrl ++ url) with
  | some e => rfl
  | none =>
    simp only
    cases env.doRequest (requestCalls ncapi url method data) with
    | error e => rfl
    | ok resp =>
      cases resp with
      | error e => rfl
      | ok body =>
        simp only
        rcases env.xmlUnmarshal body with ⟨osc, _ | e⟩ <;> rfl

theorem run_world (env : Env) (ncapi : NextcloudApi) (op : Operation) (w : World)
    (h : op.reachesTransport = true) :
    (op.run env ncapi w).2 = w.afterCall env ncapi op.callArgs := by
  rw [run_eq env ncapi op w h, returnFrom_world, Call_world]

/-! ## Claims C1 to C3: the email validation of AddUserSimple -/

/-- C1: for every email that fails the validation of `AddUserSimple`, the operation returns
the zero envelope with a validation error and leaves the history untouched (no invocation
of `Call`, no request sent; `AddUser` was not run, as every run of it records an invocation
of `Call`); `"not-an-email"` fails the validation and `"a@b.co"` passes. -/
theorem AddUserSimple_rejects_before_transport (env : Env) (ncapi : NextcloudApi)
    (email : GoString) (w : World) (h : emailValid email = false) :
    AddUserSimple env ncapi email w =
      ((OCS.zero, some ⟨ErrorKind.validation,
        getCurrentFuncName env "AddUserSimple" ++ lit ": email \x27" ++ email ++ lit "\x27 is not valid"⟩),
       w) ∧
    (∀ user : User, (AddUser env ncapi user w).2.calls.length = w.calls.length + 1) ∧
    emailValid (lit "not-an-email") = false ∧ emailValid (lit "a@b.co") = true :=
  ⟨AddUserSimple_invalid env ncapi email w h,
    fun user => by rw [AddUser_calls]; simp, rfl, rfl⟩

theorem AddUserSimple_rejects_before_transport_witness :
    emailValid (lit "not-an-email") = false ∧
    AddUserSimple sampleEnv sampleApi (lit "not-an-email") {} =
      ((OCS.zero, some ⟨ErrorKind.validation,
        getCurrentFuncName sampleEnv "AddUserSimple" ++ lit ": email \x27" ++ lit "not-an-email" ++
          lit "\x27 is not valid"⟩),
       {}) :=
  ⟨rfl, (AddUserSimple_rejects_before_transport sampleEnv sampleApi (lit "not-an-email") {} rfl).1⟩

/-- C2: for every email the validation accepts, the email has exactly one `@`, the derived
user id `strings.Split(email, "@")[0]` is the non-empty part before it and has no `@`, and
`AddUserSimple(email)` is `AddUser` on the record with that id, that email and every other
field empty; `"jane@example.com"` is accepted and derives `"jane"`. -/
theorem AddUserSimple_userid_is_local_part (env : Env) (ncapi : NextcloudApi)
    (email : GoString) (w : World) (h : emailValid email = true) :
    email.count (0x40 : Byte) = 1 ∧
    emailUserid email ≠ [] ∧
    (0x40 : Byte) ∉ emailUserid email ∧
    (∃ domain : GoString, email = emailUserid email ++ lit "@" ++ domain) ∧
    AddUserSimple env ncapi email w =
      AddUser env ncapi
        { Userid := emailUserid email, Password := [], DisplayName := [], Email := email,
          Quota := [], Language := [], Groups := [], Subadmin := [] } w ∧
    emailValid (lit "jane@example.com") = true ∧
    emailUserid (lit "jane@example.com") = lit "jane" := by
  obtain ⟨loc, dom, he, hne, hloc, hdom⟩ := emailValid_bytes email h
  have hid : emailUserid email = loc := by rw [he]; exact emailUserid_append loc dom hloc
  refine ⟨?_, ?_, ?_, ?_, AddUserSimple_valid env ncapi email w h, rfl, rfl⟩
  · rw [he, List.count_append, List.count_cons_self, List.count_eq_zero.mpr hloc,
      List.count_eq_zero.mpr hdom]
  · rw [hid]; exact hne
  · rw [hid]; exact hloc
  · refine ⟨dom, ?_⟩
    rw [hid]
    show email = loc ++ [(0x40 : Byte)] ++ dom
    rw [he]
    simp

theorem AddUserSimple_userid_is_local_part_witness :
    emailValid (lit "jane@example.com") = true ∧
    AddUserSimple sampleEnv sampleApi (lit "jane@example.com") {} =
      AddUser sampleEnv sampleApi
        { Userid := emailUserid (lit "jane@example.com"), Password := [], DisplayName := [],
          Email := lit "jane@example.com", Quota := [], Language := [], Groups := [],
          Subadmin := [] } {} :=
  ⟨rfl,
    (AddUserSimple_userid_is_local_part sampleEnv sampleApi (lit "jane@example.com") {}
      rfl).2.2.2.2.1⟩

/-- C3, counterexample: `"jane@a.b.co"` has the shape the specification describes (a
printable local part, one `@`, a domain with a dot whose final label `co` has length 2)
and yet the validation rejects it, because the label `b` is shorter than two characters. -/
theorem emailValid_not_spec_shape :
    ¬ (emailValid (lit "jane@a.b.co") = true ↔ specEmailShape (lit "jane@a.b.co") = true) := by
  have h1 : emailValid (lit "jane@a.b.co") = false := rfl
  have h2 : specEmailShape (lit "jane@a.b.co") = true := rfl
  rw [h1, h2]
  simp

/-- C3, amended: the validation accepts a string exactly when its runes are a non-empty
sequence over `[a-zA-Z0-9.!#$%&’*+/=?^_{|}~-]` and the backquote, then `@`, then a
non-empty label over `[a-zA-Z0-9-]`, then one or more groups of a dot and a label of at
least two characters over `[a-zA-Z0-9-]`. -/
theorem emailValid_iff_email_shape (email : GoString) :
    emailValid email = true ↔ EmailShape (runes email) := by
  unfold emailValid
  rw [Regex.matchRunes_iff, Lang_emailPattern]

/-! ## Claims C4 to C7: the requests of the operations -/

/-- C4, counterexample: a record with only the id set has an empty password, display
name, email, quota and language, and the body `AddUser` sends still carries the five keys
(each with an empty value): the field `password` is present in the body. -/
theorem AddUser_sends_empty_fields :
    ({ Userid := lit "u1" } : User).Password = [] ∧
    (AddUser sampleEnv sampleApi { Userid := lit "u1" } {}).2.calls =
      [{ url := lit "/ocs/v1.php/cloud/users", method := lit "POST",
         data := some (lit "displayName=&email=&language=&password=&quota=&userid=u1") }] ∧
    fieldValues (lit "displayName=&email=&language=&password=&quota=&userid=u1")
      (lit "password") = [[]] := by
  refine ⟨rfl, ?_, ?_⟩
  · rw [AddUser_calls]
    rfl
  · rfl

/-- C4, amended: for every record, the body `AddUser` sends carries each of the six scalar
keys `userid`, `password`, `displayName`, `email`, `quota` and `language` exactly once,
with the value of the field, whether that value is empty or not. -/
theorem AddUser_sends_every_scalar_field (env : Env) (ncapi : NextcloudApi) (user : User)
    (w : World) :
    ∃ body : GoString,
      (AddUser env ncapi user w).2.calls =
        w.calls ++ [{ url := lit "/ocs/v1.php/cloud/users", method := lit "POST",
                      data := some body }] ∧
      fieldValues body (lit "userid") = [user.Userid] ∧
      fieldValues body (lit "password") = [user.Password] ∧
      fieldValues body (lit "displayName") = [user.DisplayName] ∧
      fieldValues body (lit "email") = [user.Email] ∧
      fieldValues body (lit "quota") = [user.Quota] ∧
      fieldValues body (lit "language") = [user.Language] := by
  refine ⟨Values.Encode (addUserData user), AddUser_calls env ncapi user w, ?_, ?_, ?_, ?_, ?_, ?_⟩ <;>
    (rw [fieldValues_addUser]; rfl)

set_option maxRecDepth 100000 in
theorem Encode_two_groups :
    Values.Encode (addUserData { Userid := lit "u1", Groups := [lit "g1", lit "g2"] }) =
      lit "displayName=&email=&groups%5B%5D=g1&groups%5B%5D=g2&language=&password=&quota=&userid=u1" :=
  rfl

/-- C5: for every record, the values of the repeated field `groups[]` in the body of
`AddUser` are exactly `user.Groups` (same length, same order, duplicates kept) and those of
`subadmin[]` are exactly `user.Subadmin`, so that an empty list leaves no field of its key
in the body; the body is the fields of `addUserFields` in that order, joined by `&`; and
the groups `g1`, `g2` give `groups%5B%5D=g1&groups%5B%5D=g2`. -/
theorem AddUser_repeats_list_fields (env : Env) (ncapi : NextcloudApi) (user : User)
    (w : World) :
    ∃ body : GoString,
      (AddUser env ncapi user w).2.calls =
        w.calls ++ [{ url := lit "/ocs/v1.php/cloud/users", method := lit "POST",
                      data := some body }] ∧
      fieldValues body (lit "groups[]") = user.Groups ∧
      fieldValues body (lit "subadmin[]") = user.Subadmin ∧
      parseQuery body = addUserFields user ∧
      Values.Encode (addUserData { Userid := lit "u1", Groups := [lit "g1", lit "g2"] }) =
        lit "displayName=&email=&groups%5B%5D=g1&groups%5B%5D=g2&language=&password=&quota=&userid=u1" := by
  have hf : parseQuery (Values.Encode (addUserData user)) = addUserFields user := by
    rw [parseQuery_Encode, fields_addUserData]
  refine ⟨Values.Encode (addUserData user), AddUser_calls env ncapi user w, ?_, ?_, hf, ?_⟩
  · rw [fieldValues_addUser]
    show user.Groups ++ [] = user.Groups
    simp
  · rw [fieldValues_addUser]
    show user.Subadmin ++ [] = user.Subadmin
    simp
  · exact Encode_two_groups

set_option maxRecDepth 100000 in
theorem DelUser_strictEnv_world :
    (DelUser strictEnv sampleApi (lit "a%zzb") {}).2 =
      { calls := [{ url := lit "/ocs/v1.php/cloud/users/a%zzb", method := lit "DELETE",
                    data := none }]
        sent := [] } :=
  rfl

set_option maxRecDepth 100000 in
theorem DelUser_strictEnv_result :
    (DelUser strictEnv sampleApi (lit "a%zzb") {}).1 =
      (OCS.zero, some ⟨ErrorKind.transport,
        lit "github.com/stakly/nextcloudapi.(*NextcloudApi).DelUser: github.com/stakly/nextcloudapi.(*NextcloudApi).Call: parse: invalid URL escape"⟩) :=
  rfl

/-- C6, counterexample: for the user id `a%zzb` the string `DelUser` hands to
`http.NewRequest`, `https://cloud.example.org/ocs/v1.php/cloud/users/a%zzb`, has an
invalid percent-escape; `http.NewRequest` rejects it, so `DelUser` makes its invocation of
`Call` and returns a transport error, and no request is issued at all. -/
theorem DelUser_rejected_id_sends_nothing :
    rejectedByParse (sampleApi.NextcloudConfig.NextcloudUrl ++
      (lit "/ocs/v1.php/cloud/users/" ++ lit "a%zzb")) = true ∧
    (DelUser strictEnv sampleApi (lit "a%zzb") {}).2.calls =
      [{ url := lit "/ocs/v1.php/cloud/users/a%zzb", method := lit "DELETE", data := none }] ∧
    (DelUser strictEnv sampleApi (lit "a%zzb") {}).2.sent = [] ∧
    (DelUser strictEnv sampleApi (lit "a%zzb") {}).1 =
      (OCS.zero, some ⟨ErrorKind.transport,
        lit "github.com/stakly/nextcloudapi.(*NextcloudApi).DelUser: github.com/stakly/nextcloudapi.(*NextcloudApi).Call: parse: invalid URL escape"⟩) := by
  refine ⟨by decide, ?_, ?_, DelUser_strictEnv_result⟩
  · rw [DelUser_strictEnv_world]
  · rw [DelUser_strictEnv_world]

/-- C6, amended: for every user id and group id, each id-parameterised operation makes
exactly one invocation of `Call`, with the method and the path of the operation table
under the root `/ocs/v1.php`, the id copied into that path string byte for byte; the group
operations pass the body `groupid=` followed by the escaped group id, which decodes to the
single field `groupid` with the group id; `Call` hands the method and the string
`NextcloudUrl` followed by the path to `http.NewRequest`, and a request, prepared from
that string, that method and that body, is handed to the client exactly when
`http.NewRequest` accepts them: when it rejects them nothing is sent. -/
theorem id_operations_call_arguments (env : Env) (ncapi : NextcloudApi)
    (username group : GoString) (w : World) :
    (DelUser env ncapi username w).2 =
      w.afterCall env ncapi
        { url := lit "/ocs/v1.php/cloud/users/" ++ username, method := lit "DELETE",
          data := none } ∧
    (AddUserInGroup env ncapi username group w).2 =
      w.afterCall env ncapi
        { url := lit "/ocs/v1.php/cloud/users/" ++ username ++ lit "/groups",
          method := lit "POST", data := some (lit "groupid=" ++ QueryEscape group) } ∧
    (DeleteUserFromGroup env ncapi username group w).2 =
      w.afterCall env ncapi
        { url := lit "/ocs/v1.php/cloud/users/" ++ username ++ lit "/groups",
          method := lit "DELETE", data := some (lit "groupid=" ++ QueryEscape group) } ∧
    (ResendEmail env ncapi username w).2 =
      w.afterCall env ncapi
        { url := lit "/ocs/v1.php/cloud/users/" ++ username ++ lit "/welcome",
          method := lit "POST", data := none } ∧
    (DisableUser env ncapi username w).2 =
      w.afterCall env ncapi
        { url := lit "/ocs/v1.php/cloud/users/" ++ username ++ lit "/disable",
          method := lit "PUT", data := none } ∧
    (EnableUser env ncapi username w).2 =
      w.afterCall env ncapi
        { url := lit "/ocs/v1.php/cloud/users/" ++ username ++ lit "/enable",
          method := lit "PUT", data := none } ∧
    parseQuery (lit "groupid=" ++ QueryEscape group) = [(lit "groupid", group)] ∧
    (∀ c : CallRecord,
      (w.afterCall env ncapi c).calls = w.calls ++ [c] ∧
      (env.newRequest c.method (ncapi.NextcloudConfig.NextcloudUrl ++ c.url) = none →
        (w.afterCall env ncapi c).sent = w.sent ++ [requestCalls ncapi c.url c.method c.data]) ∧
      (∀ e : GoString,
        env.newRequest c.method (ncapi.NextcloudConfig.NextcloudUrl ++ c.url) = some e →
        (w.afterCall env ncapi c).sent = w.sent) ∧
      (requestCalls ncapi c.url c.method c.data).method = c.method ∧
      (requestCalls ncapi c.url c.method c.data).rawURL =
        ncapi.NextcloudConfig.NextcloudUrl ++ c.url ∧
      (requestCalls ncapi c.url c.method c.data).body = c.data) := by
  refine ⟨run_world env ncapi (Operation.delUser username) w rfl,
    run_world env ncapi (Operation.addUserInGroup username group) w rfl,
    run_world env ncapi (Operation.deleteUserFromGroup username group) w rfl,
    run_world env ncapi (Operation.resendEmail username) w rfl,
    run_world env ncapi (Operation.disableUser username) w rfl,
    run_world env ncapi (Operation.enableUser username) w rfl, ?_,
    fun c => ⟨rfl, ?_, ?_, rfl, rfl, rfl⟩⟩
  · rw [← Encode_groupid, parseQuery_Encode]
    rfl
  · intro h
    unfold World.afterCall
    simp only [h]
  · intro e h
    unfold World.afterCall
    simp only [h]

/-- C7: `ListUsers` makes one invocation of `Call` with method `GET` and no body; without
an argument the path is exactly `/ocs/v1.php/cloud/users`, which has no `?`; with
arguments the path is that prefix, `?search=` and the query-escaped first argument, which
unescapes to the first argument again; and the arguments after the first change nothing. -/
theorem ListUsers_request (env : Env) (ncapi : NextcloudApi) (first : GoString)
    (others : List GoString) (w : World) :
    (ListUsers env ncapi [] w).2 =
      w.afterCall env ncapi
        { url := lit "/ocs/v1.php/cloud/users", method := lit "GET", data := none } ∧
    (0x3F : Byte) ∉ lit "/ocs/v1.php/cloud/users" ∧
    (ListUsers env ncapi (first :: others) w).2 =
      w.afterCall env ncapi
        { url := lit "/ocs/v1.php/cloud/users" ++ lit "?search=" ++ QueryEscape first,
          method := lit "GET", data := none } ∧
    QueryUnescape (QueryEscape first) = some first ∧
    ListUsers env ncapi (first :: others) w = ListUsers env ncapi [first] w :=
  ⟨run_world env ncapi (Operation.listUsers []) w rfl, by decide,
    run_world env ncapi (Operation.listUsers (first :: others)) w rfl,
    QueryUnescape_QueryEscape first, rfl⟩

/-! ## Claims C8 to C10: results and errors -/

theorem Call_success (env : Env) (ncapi : NextcloudApi) (c : CallRecord) (w : World)
    (body : GoString) (osc : OCS)
    (hnew : env.newRequest c.method (ncapi.NextcloudConfig.NextcloudUrl ++ c.url) = none)
    (hdo : env.doRequest (requestCalls ncapi c.url c.method c.data) = Except.ok (Except.ok body))
    (hxml : env.xmlUnmarshal body = (osc, none)) :
    (Call env ncapi c.url c.method c.data w).1 = (osc, none) := by
  unfold Call
  simp only [hnew, hdo, hxml]

theorem Call_transportFails (env : Env) (ncapi : NextcloudApi) (c : CallRecord) (w : World)
    (e : GoString) (h : transportFails env ncapi c e) :
    (Call env ncapi c.url c.method c.data w).1 =
      (OCS.zero, some (wrapError env "Call" ⟨ErrorKind.transport, e⟩)) := by
  unfold Call
  rcases h with h | ⟨hnew, h | h⟩
  · simp only [h]
  · simp only [hnew, h]
  · simp only [hnew, h]

theorem Call_decodeFails (env : Env) (ncapi : NextcloudApi) (c : CallRecord) (w : World)
    (e : GoString) (h : decodeFails env ncapi c e) :
    (Call env ncapi c.url c.method c.data w).1 =
      (OCS.zero, some (wrapError env "Call" ⟨ErrorKind.decode, e⟩)) := by
  unfold Call
  obtain ⟨hnew, body, decoded, hdo, hxml⟩ := h
  simp only [hnew, hdo, hxml]

theorem returnFrom_ok (env : Env) (fn : String) (r : Result × World) (osc : OCS)
    (h : r.1 = (osc, none)) : (returnFrom env fn r).1 = (osc, none) := by
  obtain ⟨⟨resp, err⟩, w⟩ := r
  simp only [Prod.mk.injEq] at h
  obtain ⟨h1, h2⟩ := h
  subst h1 h2
  rfl

theorem returnFrom_error (env : Env) (fn : String) (r : Result × World) (osc : OCS)
    (err : GoError) (h : r.1 = (osc, some err)) :
    (returnFrom env fn r).1 = (OCS.zero, some (wrapError env fn err)) := by
  obtain ⟨⟨resp, err'⟩, w⟩ := r
  simp only [Prod.mk.injEq] at h
  obtain ⟨h1, h2⟩ := h
  subst h1 h2
  rfl

theorem wrapError_msg (env : Env) (fn : String) (err : GoError) :
    (wrapError env fn err).msg = getCurrentFuncName env fn ++ lit ": " ++ err.msg :=
  Sprintf_wrap _ _

/-- C8: for every configuration, every operation that reaches the transport (every one,
`AddUserSimple` with an email its validation accepts) and every response whose body
decodes without error, the operation returns exactly the decoded envelope with a nil
error, whatever the envelope contains. -/
theorem operations_return_decoded_envelope (env : Env) (ncapi : NextcloudApi) (op : Operation)
    (w : World) (body : GoString) (osc : OCS)
    (hreach : op.reachesTransport = true)
    (hnew : env.newRequest op.callArgs.method
      (ncapi.NextcloudConfig.NextcloudUrl ++ op.callArgs.url) = none)
    (hdo : env.doRequest (requestCalls ncapi op.callArgs.url op.callArgs.method op.callArgs.data)
      = Except.ok (Except.ok body))
    (hxml : env.xmlUnmarshal body = (osc, none)) :
    (op.run env ncapi w).1 = (osc, none) := by
  rw [run_eq env ncapi op w hreach]
  exact returnFrom_ok env _ _ osc (Call_success env ncapi op.callArgs w body osc hnew hdo hxml)

theorem operations_return_decoded_envelope_witness :
    (Operation.addUserSimple (lit "jane@example.com")).reachesTransport = true ∧
    sampleEnv.newRequest (Operation.addUserSimple (lit "jane@example.com")).callArgs.method
      (sampleApi.NextcloudConfig.NextcloudUrl ++
        (Operation.addUserSimple (lit "jane@example.com")).callArgs.url) = none ∧
    sampleEnv.xmlUnmarshal (lit "<ocs><meta><status>failure</status></meta></ocs>") =
      (failureEnvelope, none) ∧
    failureEnvelope.Meta.StatusCode = 102 ∧
    ((Operation.addUserSimple (lit "jane@example.com")).run sampleEnv sampleApi {}).1 =
      (failureEnvelope, none) :=
  ⟨rfl, rfl, rfl, rfl,
    operations_return_decoded_envelope sampleEnv sampleApi
      (Operation.addUserSimple (lit "jane@example.com")) {}
      (lit "<ocs><meta><status>failure</status></meta></ocs>") failureEnvelope rfl rfl rfl rfl⟩

/-- C9: for every operation that reaches the transport, when the transport step fails
(request construction, sending, or reading the body) the operation returns an error of
kind transport, when the body is malformed XML it returns an error of kind decode, and in
both cases the envelope returned is the zero envelope: nothing decoded comes with it. -/
theorem operations_fail_with_zero_envelope (env : Env) (ncapi : NextcloudApi) (op : Operation)
    (w : World) (kind : ErrorKind) (e : GoString)
    (hreach : op.reachesTransport = true)
    (hfail : (kind = ErrorKind.transport ∧ transportFails env ncapi op.callArgs e) ∨
      (kind = ErrorKind.decode ∧ decodeFails env ncapi op.callArgs e)) :
    ∃ err : GoError, (op.run env ncapi w).1 = (OCS.zero, some err) ∧ err.kind = kind := by
  rw [run_eq env ncapi op w hreach]
  rcases hfail with ⟨hk, h⟩ | ⟨hk, h⟩
  · subst hk
    exact ⟨_, returnFrom_error env _ _ _ _ (Call_transportFails env ncapi op.callArgs w e h), rfl⟩
  · subst hk
    exact ⟨_, returnFrom_error env _ _ _ _ (Call_decodeFails env ncapi op.callArgs w e h), rfl⟩

theorem operations_fail_with_zero_envelope_witness :
    (Operation.delUser (lit "bob")).reachesTransport = true ∧
    decodeFails garbledEnv sampleApi (Operation.delUser (lit "bob")).callArgs
      (lit "XML syntax error on line 1: unexpected EOF") ∧
    transportFails timeoutEnv sampleApi (Operation.delUser (lit "bob")).callArgs
      (lit "context deadline exceeded") ∧
    (∃ err : GoError,
      ((Operation.delUser (lit "bob")).run garbledEnv sampleApi {}).1 = (OCS.zero, some err) ∧
      err.kind = ErrorKind.decode) ∧
    (∃ err : GoError,
      ((Operation.delUser (lit "bob")).run timeoutEnv sampleApi {}).1 = (OCS.zero, some err) ∧
      err.kind = ErrorKind.transport) :=
  ⟨rfl, ⟨rfl, _, _, rfl, rfl⟩, Or.inr ⟨rfl, Or.inl rfl⟩,
    operations_fail_with_zero_envelope garbledEnv sampleApi (Operation.delUser (lit "bob")) {}
      ErrorKind.decode (lit "XML syntax error on line 1: unexpected EOF") rfl
      (Or.inr ⟨rfl, rfl, _, _, rfl, rfl⟩),
    operations_fail_with_zero_envelope timeoutEnv sampleApi (Operation.delUser (lit "bob")) {}
      ErrorKind.transport (lit "context deadline exceeded") rfl
      (Or.inl ⟨rfl, Or.inr ⟨rfl, Or.inl rfl⟩⟩)⟩

set_option maxRecDepth 100000 in
theorem AddUser_message_prefix_differs :
    (lit "github.com/stakly/nextcloudapi.(*NextcloudApi).AddUser: github.com/stakly/nextcloudapi.(*NextcloudApi).Call: context deadline exceeded").take
        (getCurrentFuncName timeoutEnv "AddUserSimple").length ≠
      getCurrentFuncName timeoutEnv "AddUserSimple" := by
  decide

set_option maxRecDepth 100000 in
theorem AddUserSimple_timeout_result :
    (AddUserSimple timeoutEnv sampleApi (lit "jane@example.com") {}).1 =
      (OCS.zero, some ⟨ErrorKind.transport,
        lit "github.com/stakly/nextcloudapi.(*NextcloudApi).AddUser: github.com/stakly/nextcloudapi.(*NextcloudApi).Call: context deadline exceeded"⟩) :=
  rfl

set_option maxRecDepth 100000 in
theorem getCurrentFuncName_AddUserSimple :
    getCurrentFuncName timeoutEnv "AddUserSimple" =
      lit "github.com/stakly/nextcloudapi.(*NextcloudApi).AddUserSimple" :=
  rfl

/-- C10, counterexample: when the transport fails under `AddUserSimple` (valid email, the
request times out), the error returned to the caller of `AddUserSimple` is the error of
`AddUser`, unchanged: its message starts with the name of `AddUser`, not with the name of
the operation the caller invoked. -/
theorem AddUserSimple_error_names_AddUser :
    (AddUserSimple timeoutEnv sampleApi (lit "jane@example.com") {}).1 =
      (OCS.zero, some ⟨ErrorKind.transport,
        lit "github.com/stakly/nextcloudapi.(*NextcloudApi).AddUser: github.com/stakly/nextcloudapi.(*NextcloudApi).Call: context deadline exceeded"⟩) ∧
    getCurrentFuncName timeoutEnv "AddUserSimple" =
      lit "github.com/stakly/nextcloudapi.(*NextcloudApi).AddUserSimple" ∧
    (lit "github.com/stakly/nextcloudapi.(*NextcloudApi).AddUser: github.com/stakly/nextcloudapi.(*NextcloudApi).Call: context deadline exceeded").take
        (getCurrentFuncName timeoutEnv "AddUserSimple").length ≠
      getCurrentFuncName timeoutEnv "AddUserSimple" := by
  refine ⟨?_, ?_, ?_⟩
  · exact AddUserSimple_timeout_result
  · exact getCurrentFuncName_AddUserSimple
  · exact AddUser_message_prefix_differs

/-- C10, amended: when the transport or the decoding fails with cause `e`, the error of
`Call` is the name of `Call`, a colon and `e`, and the error of the operation is that
message prefixed with the name of the method that called `Call`: the operation the caller
invoked, except for `AddUserSimple`, which returns the error of `AddUser` as it is; and
the validation error of `AddUserSimple` starts with the name of `AddUserSimple`. -/
theorem errors_name_the_failing_method (env : Env) (ncapi : NextcloudApi) (op : Operation)
    (w : World) (e : GoString)
    (hreach : op.reachesTransport = true)
    (hfail : transportFails env ncapi op.callArgs e ∨ decodeFails env ncapi op.callArgs e) :
    (∃ err : GoError,
      (Call env ncapi op.callArgs.url op.callArgs.method op.callArgs.data w).1 =
        (OCS.zero, some err) ∧
      err.msg = getCurrentFuncName env "Call" ++ lit ": " ++ e) ∧
    (∃ err : GoError,
      (op.run env ncapi w).1 = (OCS.zero, some err) ∧
      err.msg = getCurrentFuncName env op.wrapper ++ lit ": " ++ (getCurrentFuncName env "Call" ++ lit ": " ++ e)) ∧
    (op.wrapper = op.name ∨ ∃ email, op = Operation.addUserSimple email ∧ op.wrapper = "AddUser") ∧
    (∀ email : GoString, emailValid email = false →
      ∃ err : GoError,
        (AddUserSimple env ncapi email w).1 = (OCS.zero, some err) ∧
        err.msg = getCurrentFuncName env "AddUserSimple" ++ lit ": email \x27" ++ email ++
          lit "\x27 is not valid") := by
  have hcall : ∃ k : ErrorKind,
      (Call env ncapi op.callArgs.url op.callArgs.method op.callArgs.data w).1 =
        (OCS.zero, some (wrapError env "Call" ⟨k, e⟩)) := by
    rcases hfail with h | h
    · exact ⟨_, Call_transportFails env ncapi op.callArgs w e h⟩
    · exact ⟨_, Call_decodeFails env ncapi op.callArgs w e h⟩
  obtain ⟨k, hk⟩ := hcall
  refine ⟨⟨_, hk, wrapError_msg env "Call" ⟨k, e⟩⟩,
    ⟨wrapError env op.wrapper (wrapError env "Call" ⟨k, e⟩), ?_, ?_⟩, ?_, ?_⟩
  · rw [run_eq env ncapi op w hreach]
    exact returnFrom_error env _ _ _ _ hk
  · rw [wrapError_msg, wrapError_msg]
  · cases op <;> first | exact Or.inl rfl | exact Or.inr ⟨_, rfl, rfl⟩
  · intro email hv
    exact ⟨_, by rw [AddUserSimple_invalid env ncapi email w hv], rfl⟩

theorem errors_name_the_failing_method_witness :
    (Operation.delUser (lit "bob")).reachesTransport = true ∧
    transportFails timeoutEnv sampleApi (Operation.delUser (lit "bob")).callArgs
      (lit "context deadline exceeded") ∧
    ∃ err : GoError,
      ((Operation.delUser (lit "bob")).run timeoutEnv sampleApi {}).1 = (OCS.zero, some err) ∧
      err.msg = getCurrentFuncName timeoutEnv "DelUser" ++ lit ": " ++
        (getCurrentFuncName timeoutEnv "Call" ++ lit ": " ++ lit "context deadline exceeded") :=
  ⟨rfl, Or.inr ⟨rfl, Or.inl rfl⟩,
    (errors_name_the_failing_method timeoutEnv sampleApi (Operation.delUser (lit "bob")) {}
      (lit "context deadline exceeded") rfl (Or.inl (Or.inr ⟨rfl, Or.inl rfl⟩))).2.1⟩

end Nextcloudapi
